import Mathlib

/-!
Verification of the MCP connection hub (`src/services/mcp/McpHub.ts`).

The hub's registry is a list of connections; every operation of the source
file that the claims mention is translated into a pure Lean function over
that list.  External effects (transport construction, protocol handshake,
discovery responses, `close()` failures) are represented by an explicit
environment value passed to the function, so that every code path of the
source — including its `catch` blocks — is a branch of the Lean definition.
-/

namespace McpHub

/-- Modelled from the spec (section 3, ServerConfig): the repository snapshot
does not contain `src/services/mcp/types.ts` / `schemas.ts`, so the
configuration record is taken from the spec's data model: discriminated by
transport kind (`stdio`, `sse`, `streamableHttp`); stdio carries command,
arguments, working directory, environment overlay; network kinds carry a URL
and header map; all kinds carry `disabled`, `timeout` (seconds) and
`autoApprove` (tool names). -/
inductive McpServerConfig where
  | stdio (command : String) (args : List String) (cwd : Option String)
      (env : List (String × String)) (disabled : Bool) (timeout : Nat)
      (autoApprove : List String)
  | sse (url : String) (headers : List (String × String)) (disabled : Bool)
      (timeout : Nat) (autoApprove : List String)
  | streamableHttp (url : String) (headers : List (String × String)) (disabled : Bool)
      (timeout : Nat) (autoApprove : List String)
deriving DecidableEq

/-- Field access `config.disabled`, for all three kinds. -/
def McpServerConfig.disabled : McpServerConfig → Bool
  | .stdio _ _ _ _ d _ _ => d
  | .sse _ _ d _ _ => d
  | .streamableHttp _ _ d _ _ => d

/-- Field access `config.timeout`. -/
def McpServerConfig.timeout : McpServerConfig → Nat
  | .stdio _ _ _ _ _ t _ => t
  | .sse _ _ _ t _ => t
  | .streamableHttp _ _ _ t _ => t

/-- The in-place mutation `config.mcpServers[name].disabled = disabled` done
by `toggleServerDisabledRPC`. -/
def McpServerConfig.setDisabled : McpServerConfig → Bool → McpServerConfig
  | .stdio c a cw e _ t ap, d => .stdio c a cw e d t ap
  | .sse u h _ t ap, d => .sse u h d t ap
  | .streamableHttp u h _ t ap, d => .streamableHttp u h d t ap

/-- Connection status, `"connecting" | "connected" | "disconnected"`. -/
inductive McpStatus where
  | connecting
  | connected
  | disconnected
deriving DecidableEq

/-- A tool cache entry (`McpTool`): the name plus the derived `autoApprove`
flag computed from the settings file (other descriptive fields of the source
type do not influence any claim). -/
structure McpTool where
  name : String
  autoApprove : Bool
deriving DecidableEq

/-- A resource cache entry (`McpResource`), identified by its URI. -/
structure McpResource where
  uri : String
deriving DecidableEq

/-- A resource-template cache entry (`McpResourceTemplate`). -/
structure McpResourceTemplate where
  uriTemplate : String
deriving DecidableEq

/-- The `server` value of a connection (`McpServer` of `@shared/mcp`):
name, serialized config snapshot (`JSON.stringify(config)`; the JSON
round-trip is modelled structurally, so the snapshot is the config value),
status, disabled flag, accumulated error text (`""` = unset, matching the
falsiness test in `appendErrorMessage`), and the three caches. -/
structure McpServer where
  name : String
  config : McpServerConfig
  status : McpStatus
  disabled : Bool
  error : String
  tools : List McpTool
  resources : List McpResource
  resourceTemplates : List McpResourceTemplate
deriving DecidableEq

/-- An entry of `this.connections` (`McpConnection`): the server value plus
the `client` and `transport` references.  Disabled connections store
`null as unknown as Client` / `Transport`, modelled as `false`; a live
reference is `true`. -/
structure McpConnection where
  server : McpServer
  client : Bool
  transport : Bool
deriving DecidableEq

/-- Where `connectToServer` can throw, as visible in the source:
either during transport construction / `transport.start()` — before the
connection object is pushed into the registry — or during
`client.connect(transport)` — after the push.  `success` is the non-throwing
run. -/
inductive ConnectPhase where
  | setupFailure (msg : String)
  | handshakeFailure (msg : String)
  | success
deriving DecidableEq

/-- The external world of one `connectToServer` call: which phase throws,
the three discovery responses (`none` = the request threw, `some` = the
peer's reply), the `autoApprove` array read from the settings file by
`fetchToolsList`, and whether `close()` throws when this connection is
deleted. -/
structure ConnectEnv where
  phase : ConnectPhase
  toolsResponse : Option (List String)
  resourcesResponse : Option (List McpResource)
  templatesResponse : Option (List McpResourceTemplate)
  settingsAutoApprove : List String
  closeThrows : Bool
deriving DecidableEq

/-- Function `fetchToolsList`: finds the connection (a missing connection throws, the
surrounding `try` returns `[]`), returns `[]` for disabled connections or
absent clients, otherwise issues `tools/list` (`none` response = the request
threw, caught into `[]`) and annotates each tool with `autoApprove` from the
settings file. -/
def fetchToolsList (conns : List McpConnection) (serverName : String)
    (response : Option (List String)) (settingsAutoApprove : List String) :
    List McpTool :=
  match conns.find? (fun c => c.server.name == serverName) with
  | none => []
  | some connection =>
    if connection.server.disabled || !connection.client then []
    else
      match response with
      | none => []
      | some ts => ts.map (fun t => { name := t, autoApprove := settingsAutoApprove.contains t })

/-- Function `fetchResourcesList`: `[]` when the connection is missing, disabled or
clientless, otherwise the `resources/list` reply (a thrown request is caught
into `[]`). -/
def fetchResourcesList (conns : List McpConnection) (serverName : String)
    (response : Option (List McpResource)) : List McpResource :=
  match conns.find? (fun c => c.server.name == serverName) with
  | none => []
  | some connection =>
    if connection.server.disabled || !connection.client then []
    else
      match response with
      | none => []
      | some rs => rs

/-- Function `fetchResourceTemplatesList`, same shape as `fetchResourcesList`. -/
def fetchResourceTemplatesList (conns : List McpConnection) (serverName : String)
    (response : Option (List McpResourceTemplate)) : List McpResourceTemplate :=
  match conns.find? (fun c => c.server.name == serverName) with
  | none => []
  | some connection =>
    if connection.server.disabled || !connection.client then []
    else
      match response with
      | none => []
      | some ts => ts

/-- Function `connectToServer(name, config, source)`.  Returns the new registry and
`some msg` when the call rethrows (its callers catch that).  Branches follow
the source: the existing connection is filtered out first; a disabled config
produces a transport-less, client-less registry entry with status
`"disconnected"`; otherwise a throw before the push (transport construction
or `start()`) leaves no entry behind, a throw in `client.connect` marks the
pushed entry `"disconnected"` and appends the message, and a successful
handshake marks it `"connected"`, clears the error and runs the three
discovery fetches. -/
def connectToServer (conns : List McpConnection) (name : String)
    (config : McpServerConfig) (env : ConnectEnv) :
    List McpConnection × Option String :=
  let conns := conns.filter (fun c => !(c.server.name == name))
  if config.disabled then
    (conns ++ [{ server := { name := name, config := config, status := .disconnected,
                             disabled := true, error := "", tools := [], resources := [],
                             resourceTemplates := [] },
                 client := false, transport := false }], none)
  else
    match env.phase with
    | .setupFailure msg =>
      (conns, some msg)
    | .handshakeFailure msg =>
      (conns ++ [{ server := { name := name, config := config, status := .disconnected,
                               disabled := config.disabled, error := msg, tools := [],
                               resources := [], resourceTemplates := [] },
                   client := true, transport := true }], some msg)
    | .success =>
      let pushed := conns ++
        [{ server := { name := name, config := config, status := .connected,
                       disabled := config.disabled, error := "", tools := [],
                       resources := [], resourceTemplates := [] },
           client := true, transport := true }]
      let tools := fetchToolsList pushed name env.toolsResponse env.settingsAutoApprove
      let resources := fetchResourcesList pushed name env.resourcesResponse
      let templates := fetchResourceTemplatesList pushed name env.templatesResponse
      (conns ++ [{ server := { name := name, config := config, status := .connected,
                               disabled := config.disabled, error := "", tools := tools,
                               resources := resources, resourceTemplates := templates },
                   client := true, transport := true }], none)

/-- Function `deleteConnection(name)`: close transport and client inside a `try`
whose `catch` only logs (`closeThrows` records whether `close()` threw —
the result does not depend on it), then remove the entry from the registry. -/
def deleteConnection (conns : List McpConnection) (name : String)
    (closeThrows : Bool) : List McpConnection :=
  match conns.find? (fun c => c.server.name == name) with
  | some _ => conns.filter (fun c => !(c.server.name == name))
  | none => conns

/-- The observable actions of a reconciliation pass, in execution order:
each `deleteConnection` call and each `connectToServer` call, mirroring the
source's `console.log` statements. -/
inductive ReconcileEvent where
  | deleted (name : String)
  | connected (name : String)
deriving DecidableEq

/-- The server name an event refers to. -/
def ReconcileEvent.name : ReconcileEvent → String
  | .deleted n => n
  | .connected n => n

/-- Iteration order of `new Set(array)`: first occurrences, in order. -/
def setOrder (l : List String) : List String :=
  l.foldl (fun acc s => if acc.contains s then acc else acc ++ [s]) []

/-- The removal pass of `updateServerConnections`: for every current name
absent from the desired names, delete that connection.  The registry and the
event log are threaded as two separate accumulators. -/
def deleteRemovedServers (env : String → ConnectEnv) (newNames : List String) :
    List String → List McpConnection → List ReconcileEvent →
    List McpConnection × List ReconcileEvent
  | [], st, evs => (st, evs)
  | name :: rest, st, evs =>
    if newNames.contains name then
      deleteRemovedServers env newNames rest st evs
    else
      deleteRemovedServers env newNames rest
        (deleteConnection st name (env name).closeThrows) (evs ++ [.deleted name])

/-- One iteration of the update/add loop of `updateServerConnections`:
a missing name is connected; a present name whose stored serialized config
differs (deep equality) from the new config is deleted then reconnected;
otherwise nothing happens.  Thrown connect errors are caught and logged by
the loop, so only the registry effect remains.  Returns the new registry and
the events this iteration emits. -/
def reconcileStep (env : String → ConnectEnv) (st : List McpConnection)
    (name : String) (config : McpServerConfig) :
    List McpConnection × List ReconcileEvent :=
  match st.find? (fun c => c.server.name == name) with
  | none =>
    ((connectToServer st name config (env name)).1, [.connected name])
  | some currentConnection =>
    if currentConnection.server.config == config then (st, [])
    else
      ((connectToServer (deleteConnection st name (env name).closeThrows)
          name config (env name)).1,
        [.deleted name, .connected name])

/-- The update/add loop over `Object.entries(newServers)`. -/
def reconcileLoop (env : String → ConnectEnv) :
    List (String × McpServerConfig) → List McpConnection → List ReconcileEvent →
    List McpConnection × List ReconcileEvent
  | [], st, evs => (st, evs)
  | (name, config) :: rest, st, evs =>
    reconcileLoop env rest (reconcileStep env st name config).1
      (evs ++ (reconcileStep env st name config).2)

/-- Function `updateServerConnections(newServers)`: the removal pass over the current
names followed by the update/add loop over the desired entries (the
`isConnecting` flag and the file-watcher and webview side effects do not
touch the registry).  The desired mapping is an association list in the
JSON object's key order; a JavaScript object has unique keys. -/
def updateServerConnections (conns : List McpConnection)
    (newServers : List (String × McpServerConfig)) (env : String → ConnectEnv) :
    List McpConnection × List ReconcileEvent :=
  let currentNames := setOrder (conns.map (fun c => c.server.name))
  let newNames := newServers.map Prod.fst
  let deleted := deleteRemovedServers env newNames currentNames conns []
  reconcileLoop env newServers deleted.1 deleted.2

/-- Function `updateServerConnectionsRPC` has the same registry behaviour as
`updateServerConnections` (it differs only in the `source` tag and in not
notifying the webview). -/
def updateServerConnectionsRPC (conns : List McpConnection)
    (newServers : List (String × McpServerConfig)) (env : String → ConnectEnv) :
    List McpConnection × List ReconcileEvent :=
  updateServerConnections conns newServers env

/-- The error taxonomy of the invocation interface. -/
inductive InvokeError where
  | connectionNotFound (serverName : String)
  | serverDisabled (serverName : String)
deriving DecidableEq

/-- The protocol request `readResource` would issue. -/
structure ReadRequest where
  serverName : String
  uri : String
deriving DecidableEq

/-- The protocol request `callTool` would issue, with its resolved timeout in
milliseconds. -/
structure CallRequest where
  serverName : String
  toolName : String
  timeoutMs : Nat
deriving DecidableEq

/-- Function `readResource(serverName, uri)`: a missing connection throws
`connectionNotFound`, a disabled one throws `serverDisabled`; only past both
guards is a `resources/read` request issued (an `.error` result therefore
means no request value exists — no network activity). -/
def readResource (conns : List McpConnection) (serverName uri : String) :
    Except InvokeError ReadRequest :=
  match conns.find? (fun c => c.server.name == serverName) with
  | none => .error (.connectionNotFound serverName)
  | some connection =>
    if connection.server.disabled then .error (.serverDisabled serverName)
    else .ok { serverName := serverName, uri := uri }

/-- Function `callTool(serverName, toolName, args)`: the same two guards, then the
per-server timeout is resolved from the stored config (the snapshot is
structural here, so the schema parse succeeds and the configured value is
used; `secondsToMs` multiplies by 1000) and the `tools/call` request is
issued. -/
def callTool (conns : List McpConnection) (serverName toolName : String) :
    Except InvokeError CallRequest :=
  match conns.find? (fun c => c.server.name == serverName) with
  | none => .error (.connectionNotFound serverName)
  | some connection =>
    if connection.server.disabled then .error (.serverDisabled serverName)
    else .ok { serverName := serverName, toolName := toolName,
               timeoutMs := connection.server.config.timeout * 1000 }

/-- One stored pending notification. -/
structure PendingNotification where
  serverName : String
  level : String
  message : String
  timestamp : Nat
deriving DecidableEq

/-- The notification router's state: whether a callback is registered
(`setNotificationCallback` / `clearNotificationCallback`) and the pending
list. -/
structure NotifState where
  hasCallback : Bool
  pending : List PendingNotification
deriving DecidableEq

/-- The optional `params` of a `notifications/message` notification. -/
structure NotificationParams where
  level : Option String
  logger : Option String
  data : Option String
  message : Option String
deriving DecidableEq

/-- JavaScript `a || b` on an optional string: an absent or empty (falsy)
left operand yields the right one. -/
def jsStringOr (a : Option String) (b : String) : String :=
  match a with
  | some s => if s == "" then b else s
  | none => b

/-- Normalization `params.level || "info"` of the notification handler. -/
def notificationLevel (params : NotificationParams) : String :=
  jsStringOr params.level "info"

/-- The formatted message text of the handler: the data prefixed with the
bracketed logger name when a logger is present, the bare data otherwise. -/
def notificationText (params : NotificationParams) : String :=
  let data := jsStringOr params.data (jsStringOr params.message "")
  let logger := jsStringOr params.logger ""
  if logger == "" then data else "[" ++ logger ++ "] " ++ data

/-- The body of the `notifications/message` handler installed by
`connectToServer`: normalize `(level, message)` from the params, then either
deliver to the registered callback (returned as the list of invocations) or
append to the pending list.  The webview forward is a separate best-effort
path that touches neither the callback nor the queue. -/
def handleNotificationMessage (st : NotifState) (serverName : String)
    (params : NotificationParams) (now : Nat) :
    NotifState × List (String × String × String) :=
  let level := notificationLevel params
  let message := notificationText params
  if st.hasCallback then
    (st, [(serverName, level, message)])
  else
    ({ st with pending := st.pending ++
        [{ serverName := serverName, level := level, message := message, timestamp := now }] },
      [])

/-- Function `getPendingNotifications()`: return a copy of the pending list and clear
it. -/
def getPendingNotifications (st : NotifState) :
    List PendingNotification × NotifState :=
  (st.pending, { st with pending := [] })

/-- JavaScript `Array.prototype.indexOf`: index of the first occurrence, or
`-1`. -/
def jsIndexOf : List String → String → Int
  | [], _ => -1
  | x :: xs, s =>
    if x == s then 0
    else if jsIndexOf xs s == -1 then -1 else jsIndexOf xs s + 1

/-- Function `getSortedMcpServers(serverOrder)`: a stable sort of the registry by the
position of each name in the settings file's key order (ES2019 `sort` is
stable; the comparator is `indexOf a - indexOf b`), projected to the server
values. -/
def getSortedMcpServers (conns : List McpConnection) (serverOrder : List String) :
    List McpServer :=
  (List.insertionSort
      (fun a b => jsIndexOf serverOrder a.server.name ≤ jsIndexOf serverOrder b.server.name)
      conns).map (fun c => c.server)

/-- Replace the value at the first occurrence of a key (a JavaScript object
has unique keys, so the first occurrence is the key's slot). -/
def updateAssocFirst (l : List (String × McpServerConfig)) (key : String)
    (f : McpServerConfig → McpServerConfig) : List (String × McpServerConfig) :=
  match l with
  | [] => []
  | (k, v) :: rest =>
    if k == key then (k, f v) :: rest else (k, v) :: updateAssocFirst rest key f

/-- Mutate the first connection matching a name (`connections.find(...)`
returns the first match, and the source mutates that object in place). -/
def updateConnFirst (conns : List McpConnection) (name : String)
    (f : McpConnection → McpConnection) : List McpConnection :=
  match conns with
  | [] => []
  | c :: rest =>
    if c.server.name == name then f c :: rest else c :: updateConnFirst rest name f

/-- Function `toggleServerDisabledRPC(serverName, disabled)`: `none` settings model a
failed read/validation (rethrown); a name present in the settings gets its
`disabled` field flipped in the file, the matching live connection — if any —
gets `server.disabled` flipped in place (nothing else of the connection is
touched), and the sorted server list is returned; an unknown name throws. -/
def toggleServerDisabledRPC (settings : Option (List (String × McpServerConfig)))
    (conns : List McpConnection) (serverName : String) (disabled : Bool) :
    Except String (List (String × McpServerConfig) × List McpConnection × List McpServer) :=
  match settings with
  | none => .error "Failed to read or validate MCP settings"
  | some config =>
    match config.lookup serverName with
    | some _ =>
      let config' := updateAssocFirst config serverName (fun c => c.setDisabled disabled)
      let conns' := updateConnFirst conns serverName
        (fun c => { c with server := { c.server with disabled := disabled } })
      let serverOrder := config'.map Prod.fst
      .ok (config', conns', getSortedMcpServers conns' serverOrder)
    | none =>
      .error ("Server \x22" ++ serverName ++ "\x22 not found in MCP configuration")

/-- The inner loop of `toggleToolAutoApprove` / `toggleToolAutoApproveRPC`
over the stored `autoApprove` array: `push` a missing name when allowing,
`splice` out the first occurrence when disallowing. -/
def applyToggle (autoApprove : List String) (toolNames : List String)
    (shouldAllow : Bool) : List String :=
  toolNames.foldl
    (fun acc toolName =>
      if shouldAllow then
        if acc.contains toolName then acc else acc ++ [toolName]
      else
        acc.erase toolName)
    autoApprove

/-- Function `toggleToolAutoApprove(serverName, toolNames, shouldAllow)` at the
settings-file level.  The file is read raw (`JSON.parse`, no schema check):
each server entry carries an optional `autoApprove` array, initialized to
`[]` when absent; an unknown server name makes the property access throw.
Writing and re-reading the file reproduces the stored array (the JSON
round-trip is modelled structurally). -/
def toggleToolAutoApprove (settings : List (String × Option (List String)))
    (serverName : String) (toolNames : List String) (shouldAllow : Bool) :
    Except String (List (String × Option (List String))) :=
  match settings.lookup serverName with
  | none => .error "TypeError: Cannot read properties of undefined"
  | some entry =>
    let autoApprove := entry.getD []
    let autoApprove' := applyToggle autoApprove toolNames shouldAllow
    .ok (settings.map (fun kv => if kv.1 == serverName then (kv.1, some autoApprove') else kv))

/-- Function `addRemoteServer(serverName, serverUrl)`: a failed settings read throws;
an existing name throws; a URL rejected by the validator throws; only then is
the new `{url, disabled: false, autoApprove: []}` entry appended to the file
and the registry reconciled against the updated mapping.  The function
returns the settings file, the registry, and the thrown error or the sorted
listing — the first two are returned unchanged on every failure path, which
is the atomicity the claim asserts. -/
def addRemoteServer (settings : Option (List (String × McpServerConfig)))
    (settingsFile : List (String × McpServerConfig)) (conns : List McpConnection)
    (validUrl : String → Bool) (serverName serverUrl : String)
    (env : String → ConnectEnv) :
    List (String × McpServerConfig) × List McpConnection × Except String (List McpServer) :=
  match settings with
  | none => (settingsFile, conns, .error "Failed to read MCP settings")
  | some mcpServers =>
    if (mcpServers.lookup serverName).isSome then
      (settingsFile, conns,
        .error ("An MCP server with the name \x22" ++ serverName ++ "\x22 already exists"))
    else if !(validUrl serverUrl) then
      (settingsFile, conns,
        .error ("Invalid server URL: " ++ serverUrl ++ ". Please provide a valid URL."))
    else
      let serverConfig : McpServerConfig := .sse serverUrl [] false 60 []
      let newServers := mcpServers ++ [(serverName, serverConfig)]
      let conns' := (updateServerConnectionsRPC conns newServers env).1
      let serverOrder := newServers.map Prod.fst
      (newServers, conns', .ok (getSortedMcpServers conns' serverOrder))

/-- The sub-list of registry entries carrying a given name. -/
def connsNamed (name : String) (st : List McpConnection) : List McpConnection :=
  st.filter (fun c => c.server.name == name)

/-- The structural property every entry `connectToServer` creates has: if its
disabled flag is set, it holds no client and no transport. -/
def connOk (c : McpConnection) : Prop :=
  c.server.disabled = true → c.client = false ∧ c.transport = false

/-- The spec's invariant (section 3): a disabled connection in the registry
never holds a transport or a protocol client. -/
def DisabledInvariant (conns : List McpConnection) : Prop :=
  ∀ c ∈ conns, connOk c

/-- Repeatedly feed the notification handler with no consumer registered;
every notification lands in the pending queue. -/
def handleRepeated : Nat → NotifState
  | 0 => { hasCallback := false, pending := [] }
  | n + 1 =>
    (handleNotificationMessage (handleRepeated n) "s"
      { level := none, logger := none, data := some "m", message := none } 0).1

/-- A demonstration enabled network config. -/
def cfgA : McpServerConfig := .sse "http://localhost/a" [] false 60 []

/-- A second demonstration config. -/
def cfgB : McpServerConfig := .sse "http://localhost/b" [] false 60 []

/-- A connected registry entry for `"a"` built from `cfgA`. -/
def connA : McpConnection :=
  { server := { name := "a", config := cfgA, status := .connected, disabled := false,
                error := "", tools := [], resources := [], resourceTemplates := [] },
    client := true, transport := true }

/-- A connected registry entry for `"b"` built from `cfgB`. -/
def connB : McpConnection :=
  { server := { name := "b", config := cfgB, status := .connected, disabled := false,
                error := "", tools := [], resources := [], resourceTemplates := [] },
    client := true, transport := true }

/-- A disabled registry entry for `"d"`, as `connectToServer` creates it. -/
def connDisabledD : McpConnection :=
  { server := { name := "d", config := McpServerConfig.sse "http://localhost/d" [] true 60 [],
                status := .disconnected, disabled := true, error := "", tools := [],
                resources := [], resourceTemplates := [] },
    client := false, transport := false }

/-- A benign environment: successful handshake, empty discovery replies. -/
def envDefault : ConnectEnv :=
  { phase := .success, toolsResponse := some [], resourcesResponse := some [],
    templatesResponse := some [], settingsAutoApprove := [], closeThrows := false }

/-- An environment whose transport construction / `start()` throws. -/
def envSetupFail : ConnectEnv :=
  { phase := .setupFailure "boom", toolsResponse := none, resourcesResponse := none,
    templatesResponse := none, settingsAutoApprove := [], closeThrows := false }

/-- An environment in which every `close()` call throws. -/
def envCloseThrows : ConnectEnv :=
  { envDefault with closeThrows := true }

/-- An environment whose protocol handshake (`client.connect`) throws. -/
def envHandshakeFail : ConnectEnv :=
  { phase := .handshakeFailure "refused", toolsResponse := none, resourcesResponse := none,
    templatesResponse := none, settingsAutoApprove := [], closeThrows := false }

/-- A successful connect in which only the `tools/list` request throws. -/
def envToolsFail : ConnectEnv :=
  { phase := .success, toolsResponse := none,
    resourcesResponse := some [{ uri := "res://x" }], templatesResponse := some [],
    settingsAutoApprove := [], closeThrows := false }

/-! ### Helper lemmas about the registry operations -/

/-- Lemma: `find?` returns the head of the filtered list. -/
theorem find?_eq_head?_filter {α : Type} (l : List α) (p : α → Bool) :
    l.find? p = (l.filter p).head? := by
  induction l with
  | nil => rfl
  | cons x xs ih =>
    by_cases h : p x
    · rw [List.find?_cons_of_pos _ h, List.filter_cons_of_pos h]; rfl
    · rw [List.find?_cons_of_neg _ h, List.filter_cons_of_neg h, ih]

theorem deleteConnection_eq_filter (st : List McpConnection) (n : String) (b : Bool) :
    deleteConnection st n b = st.filter (fun c => !(c.server.name == n)) := by
  unfold deleteConnection
  cases h : st.find? (fun c => c.server.name == n) with
  | some c => rfl
  | none =>
    rw [List.find?_eq_none] at h
    exact (List.filter_eq_self.mpr (fun c hc => by simpa using h c hc)).symm

theorem connsNamed_delete_other (st : List McpConnection) (n name : String) (b : Bool)
    (h : n ≠ name) : connsNamed name (deleteConnection st n b) = connsNamed name st := by
  rw [deleteConnection_eq_filter, connsNamed, connsNamed, List.filter_filter]
  refine List.filter_congr (fun c _ => ?_)
  by_cases hc : c.server.name = name
  · have : ¬ (c.server.name == n) = true := by
      simp [beq_iff_eq, hc]; exact fun hh => h hh.symm
    simp [hc, this]
    exact fun hh => h hh.symm
  · simp [beq_iff_eq, hc]

theorem connectToServer_shape (st : List McpConnection) (n : String)
    (cfg : McpServerConfig) (env : ConnectEnv) :
    ∃ tail, (connectToServer st n cfg env).1 =
        st.filter (fun c => !(c.server.name == n)) ++ tail ∧
      ∀ c ∈ tail, c.server.name = n ∧ connOk c := by
  unfold connectToServer
  by_cases hd : cfg.disabled = true
  · rw [if_pos hd]
    refine ⟨_, rfl, ?_⟩
    intro c hc
    simp only [List.mem_singleton] at hc
    subst hc
    exact ⟨rfl, fun _ => ⟨rfl, rfl⟩⟩
  · rw [if_neg hd]
    have hd' : cfg.disabled = false := by
      cases h : cfg.disabled
      · rfl
      · exact absurd h hd
    cases hp : env.phase with
    | setupFailure msg =>
      exact ⟨[], by simp, by intro c hc; simp at hc⟩
    | handshakeFailure msg =>
      refine ⟨_, rfl, ?_⟩
      intro c hc
      simp only [List.mem_singleton] at hc
      subst hc
      refine ⟨rfl, fun h => ?_⟩
      simp [hd'] at h
    | success =>
      refine ⟨_, rfl, ?_⟩
      intro c hc
      simp only [List.mem_singleton] at hc
      subst hc
      refine ⟨rfl, fun h => ?_⟩
      simp [hd'] at h

theorem connsNamed_connect_other (st : List McpConnection) (n name : String)
    (cfg : McpServerConfig) (env : ConnectEnv) (h : n ≠ name) :
    connsNamed name (connectToServer st n cfg env).1 = connsNamed name st := by
  obtain ⟨tail, heq, htail⟩ := connectToServer_shape st n cfg env
  rw [heq, connsNamed, List.filter_append]
  have h1 : tail.filter (fun c => c.server.name == name) = [] := by
    rw [List.filter_eq_nil_iff]
    intro c hc
    have := (htail c hc).1
    simp [beq_iff_eq, this, h]
  rw [h1, List.append_nil, List.filter_filter]
  refine List.filter_congr (fun c _ => ?_)
  by_cases hc : c.server.name = name
  · have : ¬ (c.server.name == n) = true := by
      simp [beq_iff_eq, hc]; exact fun hh => h hh.symm
    simp [hc, this]
    exact fun hh => h hh.symm
  · simp [beq_iff_eq, hc]

theorem connectToServer_mem (st : List McpConnection) (n : String)
    (cfg : McpServerConfig) (env : ConnectEnv) (c : McpConnection)
    (hc : c ∈ (connectToServer st n cfg env).1) : c ∈ st ∨ connOk c := by
  obtain ⟨tail, heq, htail⟩ := connectToServer_shape st n cfg env
  rw [heq, List.mem_append] at hc
  rcases hc with hc | hc
  · exact .inl (List.mem_of_mem_filter hc)
  · exact .inr (htail c hc).2

theorem deleteConnection_mem (st : List McpConnection) (n : String) (b : Bool)
    (c : McpConnection) (hc : c ∈ deleteConnection st n b) : c ∈ st := by
  rw [deleteConnection_eq_filter] at hc
  exact List.mem_of_mem_filter hc

theorem reconcileLoop_shift (env : String → ConnectEnv)
    (pairs : List (String × McpServerConfig)) (st : List McpConnection)
    (evs : List ReconcileEvent) :
    reconcileLoop env pairs st evs =
      ((reconcileLoop env pairs st []).1, evs ++ (reconcileLoop env pairs st []).2) := by
  induction pairs generalizing st evs with
  | nil => simp [reconcileLoop]
  | cons p rest ih =>
    obtain ⟨n, cfg⟩ := p
    show reconcileLoop env rest _ _ = _
    rw [ih _ (evs ++ (reconcileStep env st n cfg).2)]
    conv_rhs => rw [show reconcileLoop env ((n, cfg) :: rest) st [] =
      reconcileLoop env rest (reconcileStep env st n cfg).1
        ([] ++ (reconcileStep env st n cfg).2) from rfl]
    rw [List.nil_append, ih _ (reconcileStep env st n cfg).2]
    simp

theorem reconcileLoop_append (env : String → ConnectEnv)
    (l₁ l₂ : List (String × McpServerConfig)) (st : List McpConnection)
    (evs : List ReconcileEvent) :
    reconcileLoop env (l₁ ++ l₂) st evs =
      reconcileLoop env l₂ (reconcileLoop env l₁ st evs).1 (reconcileLoop env l₁ st evs).2 := by
  induction l₁ generalizing st evs with
  | nil => rfl
  | cons p rest ih =>
    obtain ⟨n, cfg⟩ := p
    exact ih _ _

theorem connsNamed_step_other (env : String → ConnectEnv) (st : List McpConnection)
    (n name : String) (cfg : McpServerConfig) (h : n ≠ name) :
    connsNamed name (reconcileStep env st n cfg).1 = connsNamed name st := by
  unfold reconcileStep
  cases hf : st.find? (fun c => c.server.name == n) with
  | none =>
    exact connsNamed_connect_other st n name cfg (env n) h
  | some c =>
    by_cases hc : (c.server.config == cfg) = true
    · simp [hc]
    · simp only [hc, Bool.false_eq_true, if_false]
      rw [connsNamed_connect_other _ n name cfg (env n) h,
        connsNamed_delete_other st n name _ h]

theorem connsNamed_loop_other (env : String → ConnectEnv)
    (pairs : List (String × McpServerConfig)) (name : String)
    (st : List McpConnection) (evs : List ReconcileEvent)
    (h : name ∉ pairs.map Prod.fst) :
    connsNamed name (reconcileLoop env pairs st evs).1 = connsNamed name st := by
  induction pairs generalizing st evs with
  | nil => rfl
  | cons p rest ih =>
    obtain ⟨n, cfg⟩ := p
    simp only [List.map_cons, List.mem_cons] at h
    push_neg at h
    show connsNamed name (reconcileLoop env rest _ _).1 = _
    rw [ih _ _ h.2]
    exact connsNamed_step_other env st n name cfg (fun hh => h.1 hh.symm)

theorem connsNamed_deletePass (env : String → ConnectEnv) (newNames : List String)
    (names : List String) (st : List McpConnection) (evs : List ReconcileEvent)
    (name : String) (h : newNames.contains name = true) :
    connsNamed name (deleteRemovedServers env newNames names st evs).1 = connsNamed name st := by
  induction names generalizing st evs with
  | nil => rfl
  | cons n rest ih =>
    unfold deleteRemovedServers
    by_cases hn : newNames.contains n = true
    · rw [if_pos hn]
      exact ih _ _
    · rw [if_neg hn]
      rw [ih _ _]
      refine connsNamed_delete_other st n name _ (fun he => ?_)
      subst he
      exact hn h

theorem deletePass_mem (env : String → ConnectEnv) (newNames : List String)
    (names : List String) (st : List McpConnection) (evs : List ReconcileEvent)
    (c : McpConnection) (hc : c ∈ (deleteRemovedServers env newNames names st evs).1) :
    c ∈ st := by
  induction names generalizing st evs with
  | nil => exact hc
  | cons n rest ih =>
    unfold deleteRemovedServers at hc
    by_cases hn : newNames.contains n = true
    · rw [if_pos hn] at hc
      exact ih _ _ hc
    · rw [if_neg hn] at hc
      exact deleteConnection_mem _ _ _ _ (ih _ _ hc)

theorem reconcileStep_mem (env : String → ConnectEnv) (st : List McpConnection)
    (n : String) (cfg : McpServerConfig) (c : McpConnection)
    (hc : c ∈ (reconcileStep env st n cfg).1) : c ∈ st ∨ connOk c := by
  unfold reconcileStep at hc
  cases hf : st.find? (fun c => c.server.name == n) with
  | none =>
    rw [hf] at hc
    exact connectToServer_mem _ _ _ _ _ hc
  | some cur =>
    rw [hf] at hc
    by_cases hcfg : (cur.server.config == cfg) = true
    · simp only [hcfg, if_true] at hc
      exact .inl hc
    · simp only [hcfg, if_false] at hc
      rcases connectToServer_mem _ _ _ _ _ hc with hin | hok
      · exact .inl (deleteConnection_mem _ _ _ _ hin)
      · exact .inr hok

theorem reconcileLoop_mem (env : String → ConnectEnv)
    (pairs : List (String × McpServerConfig)) (st : List McpConnection)
    (evs : List ReconcileEvent) (c : McpConnection)
    (hc : c ∈ (reconcileLoop env pairs st evs).1) : c ∈ st ∨ connOk c := by
  induction pairs generalizing st evs with
  | nil => exact .inl hc
  | cons p rest ih =>
    obtain ⟨n, cfg⟩ := p
    rcases ih (reconcileStep env st n cfg).1 (evs ++ (reconcileStep env st n cfg).2) hc with
      hin | hok
    · rcases reconcileStep_mem env st n cfg c hin with h | h
      · exact .inl h
      · exact .inr h
    · exact .inr hok

theorem updateServerConnections_mem (conns : List McpConnection)
    (newServers : List (String × McpServerConfig)) (env : String → ConnectEnv)
    (c : McpConnection) (hc : c ∈ (updateServerConnections conns newServers env).1) :
    c ∈ conns ∨ connOk c := by
  unfold updateServerConnections at hc
  rcases reconcileLoop_mem _ _ _ _ _ hc with hin | hok
  · exact .inl (deletePass_mem _ _ _ _ _ _ hin)
  · exact .inr hok

theorem mem_setOrder (l : List String) (s : String) : s ∈ setOrder l ↔ s ∈ l := by
  have aux : ∀ (l acc : List String),
      s ∈ l.foldl (fun acc t => if acc.contains t then acc else acc ++ [t]) acc ↔
        s ∈ acc ∨ s ∈ l := by
    intro l
    induction l with
    | nil => intro acc; simp
    | cons x xs ih =>
      intro acc
      show s ∈ xs.foldl _ (if acc.contains x then acc else acc ++ [x]) ↔ _
      rw [ih]
      by_cases hx : acc.contains x = true
      · rw [if_pos hx]
        simp only [List.mem_cons]
        constructor
        · rintro (h | h)
          · exact .inl h
          · exact .inr (.inr h)
        · rintro (h | h | h)
          · exact .inl h
          · subst h; exact .inl (by simpa using hx)
          · exact .inr h
      · rw [if_neg hx]
        simp only [List.mem_append, List.mem_singleton, List.mem_cons]
        tauto
  rw [setOrder, aux]
  simp

theorem connsNamed_filter_out (st : List McpConnection) (n : String) :
    connsNamed n (st.filter (fun c => !(c.server.name == n))) = [] := by
  rw [connsNamed, List.filter_filter, List.filter_eq_nil_iff]
  intro c _
  by_cases h : (c.server.name == n) = true <;> simp [h]

theorem connsNamed_append (n : String) (l₁ l₂ : List McpConnection) :
    connsNamed n (l₁ ++ l₂) = connsNamed n l₁ ++ connsNamed n l₂ :=
  List.filter_append l₁ l₂

/-- After a `connectToServer` call for `n` with a disabled config or a
successful handshake, exactly one entry named `n` is in the registry. -/
theorem connectToServer_creates (st : List McpConnection) (n : String)
    (cfg : McpServerConfig) (env : ConnectEnv)
    (h : cfg.disabled = true ∨ env.phase = .success) :
    ∃ c, connsNamed n (connectToServer st n cfg env).1 = [c] ∧ c.server.name = n := by
  unfold connectToServer
  by_cases hd : cfg.disabled = true
  · rw [if_pos hd]
    rw [connsNamed_append, connsNamed_filter_out, List.nil_append]
    simp only [connsNamed, List.filter_cons, List.filter_nil, beq_self_eq_true, if_true]
    exact ⟨_, rfl, rfl⟩
  · rw [if_neg hd]
    rcases h with h | h
    · exact absurd h hd
    · rw [h]
      rw [connsNamed_append, connsNamed_filter_out, List.nil_append]
      simp only [connsNamed, List.filter_cons, List.filter_nil, beq_self_eq_true, if_true]
      exact ⟨_, rfl, rfl⟩

/-- Any entry named `n` left by a `connectToServer` call for `n` with a
disabled config holds no client and no transport. -/
theorem connectToServer_disabled_cfg (st : List McpConnection) (n : String)
    (cfg : McpServerConfig) (env : ConnectEnv) (h : cfg.disabled = true)
    (c : McpConnection) (hc : c ∈ connsNamed n (connectToServer st n cfg env).1) :
    c.client = false ∧ c.transport = false := by
  unfold connectToServer at hc
  rw [if_pos h, connsNamed_append, connsNamed_filter_out] at hc
  simp only [List.nil_append, connsNamed, List.mem_filter] at hc
  rcases hc with ⟨hc, -⟩
  simp only [List.mem_singleton] at hc
  subst hc
  exact ⟨rfl, rfl⟩

theorem find?_name_of_connsNamed (st : List McpConnection) (n : String) :
    st.find? (fun c => c.server.name == n) = (connsNamed n st).head? :=
  find?_eq_head?_filter st _

theorem reconcileStep_none_eq (env : String → ConnectEnv) (st : List McpConnection)
    (n : String) (cfg : McpServerConfig)
    (hf : st.find? (fun c => c.server.name == n) = none) :
    reconcileStep env st n cfg = ((connectToServer st n cfg (env n)).1, [.connected n]) := by
  unfold reconcileStep
  rw [hf]

theorem reconcileStep_noop_eq (env : String → ConnectEnv) (st : List McpConnection)
    (n : String) (cfg : McpServerConfig) (c : McpConnection)
    (hf : st.find? (fun cc => cc.server.name == n) = some c)
    (hcfg : c.server.config = cfg) :
    reconcileStep env st n cfg = (st, []) := by
  unfold reconcileStep
  rw [hf]
  simp [hcfg]

theorem reconcileStep_recreate_eq (env : String → ConnectEnv) (st : List McpConnection)
    (n : String) (cfg : McpServerConfig) (c : McpConnection)
    (hf : st.find? (fun cc => cc.server.name == n) = some c)
    (hcfg : c.server.config ≠ cfg) :
    reconcileStep env st n cfg =
      ((connectToServer (deleteConnection st n (env n).closeThrows) n cfg (env n)).1,
        [.deleted n, .connected n]) := by
  unfold reconcileStep
  rw [hf]
  have : ¬ (c.server.config == cfg) = true := by simpa using hcfg
  simp [this]

theorem reconcileStep_events_name (env : String → ConnectEnv) (st : List McpConnection)
    (n : String) (cfg : McpServerConfig) (e : ReconcileEvent)
    (he : e ∈ (reconcileStep env st n cfg).2) : e.name = n := by
  cases hf : st.find? (fun c => c.server.name == n) with
  | none =>
    rw [reconcileStep_none_eq env st n cfg hf] at he
    simp only [List.mem_singleton] at he
    subst he; rfl
  | some c =>
    by_cases hcfg : c.server.config = cfg
    · rw [reconcileStep_noop_eq env st n cfg c hf hcfg] at he
      simp at he
    · rw [reconcileStep_recreate_eq env st n cfg c hf hcfg] at he
      simp only [List.mem_cons, List.mem_singleton, List.not_mem_nil, or_false] at he
      rcases he with he | he
      · subst he; rfl
      · subst he; rfl

theorem reconcileLoop_events (env : String → ConnectEnv)
    (pairs : List (String × McpServerConfig)) (st : List McpConnection)
    (evs : List ReconcileEvent) (e : ReconcileEvent)
    (he : e ∈ (reconcileLoop env pairs st evs).2) :
    e ∈ evs ∨ e.name ∈ pairs.map Prod.fst := by
  induction pairs generalizing st evs with
  | nil => exact .inl he
  | cons p rest ih =>
    obtain ⟨n, cfg⟩ := p
    rcases ih (reconcileStep env st n cfg).1 (evs ++ (reconcileStep env st n cfg).2) he with
      hin | hname
    · rw [List.mem_append] at hin
      rcases hin with hin | hin
      · exact .inl hin
      · exact .inr (by simp [reconcileStep_events_name env st n cfg e hin])
    · exact .inr (by simp [hname])

theorem deletePass_events (env : String → ConnectEnv) (newNames names : List String)
    (st : List McpConnection) (evs : List ReconcileEvent) (e : ReconcileEvent)
    (he : e ∈ (deleteRemovedServers env newNames names st evs).2) :
    e ∈ evs ∨ ∃ n, e = .deleted n ∧ newNames.contains n = false := by
  induction names generalizing st evs with
  | nil => exact .inl he
  | cons n rest ih =>
    unfold deleteRemovedServers at he
    by_cases hn : newNames.contains n = true
    · rw [if_pos hn] at he
      exact ih _ _ he
    · rw [if_neg hn] at he
      rcases ih _ _ he with hin | hex
      · rw [List.mem_append] at hin
        rcases hin with hin | hin
        · exact .inl hin
        · simp only [List.mem_singleton] at hin
          exact .inr ⟨n, hin, by simpa using hn⟩
      · exact .inr hex

theorem deletePass_noop (env : String → ConnectEnv) (newNames names : List String)
    (st : List McpConnection) (evs : List ReconcileEvent)
    (h : ∀ n ∈ names, newNames.contains n = true) :
    deleteRemovedServers env newNames names st evs = (st, evs) := by
  induction names with
  | nil => rfl
  | cons n rest ih =>
    unfold deleteRemovedServers
    rw [if_pos (h n (by simp))]
    exact ih (fun m hm => h m (by simp [hm]))

theorem reconcileLoop_noop (env : String → ConnectEnv)
    (pairs : List (String × McpServerConfig)) (st : List McpConnection)
    (evs : List ReconcileEvent)
    (h : ∀ p ∈ pairs, ∃ c, st.find? (fun cc => cc.server.name == p.1) = some c ∧
      c.server.config = p.2) :
    reconcileLoop env pairs st evs = (st, evs) := by
  induction pairs with
  | nil => rfl
  | cons p rest ih =>
    obtain ⟨n, cfg⟩ := p
    obtain ⟨c, hf, hcfg⟩ := h (n, cfg) (by simp)
    show reconcileLoop env rest (reconcileStep env st n cfg).1
      (evs ++ (reconcileStep env st n cfg).2) = _
    rw [reconcileStep_noop_eq env st n cfg c hf hcfg]
    simpa using ih (fun p hp => h p (by simp [hp]))

theorem deletePass_all (env : String → ConnectEnv) (names : List String)
    (st : List McpConnection) (evs : List ReconcileEvent)
    (h : ∀ c ∈ st, names.contains c.server.name = true) :
    (deleteRemovedServers env [] names st evs).1 = [] := by
  induction names generalizing st evs with
  | nil =>
    cases st with
    | nil => rfl
    | cons c cs => exact absurd (h c (by simp)) (by simp)
  | cons n rest ih =>
    unfold deleteRemovedServers
    rw [if_neg (by simp)]
    apply ih
    intro c hc
    have hin := deleteConnection_mem _ _ _ _ hc
    have hcontains := h c hin
    rw [deleteConnection_eq_filter] at hc
    have hne := (List.mem_filter.mp hc).2
    simp only [List.contains_cons] at hcontains
    simp only [Bool.not_eq_eq_eq_not, Bool.not_true] at hne
    rcases Bool.or_eq_true_iff.mp hcontains with heq | hrest
    · rw [heq] at hne; cases hne
    · exact hrest

/-- Claim C3: reconciling an empty desired mapping removes every registry
entry, for every environment — in particular when every `close()` throws —
and `deleteConnection` always removes the named entry from the registry
(the thrown `close()` is caught, so the function is total and its result
never depends on it). -/
theorem claim_C3 (conns : List McpConnection) (env : String → ConnectEnv) :
    (updateServerConnections conns [] env).1 = [] ∧
    ∀ (st : List McpConnection) (name : String) (b : Bool),
      deleteConnection st name b = st.filter (fun c => !(c.server.name == name)) := by
  refine ⟨?_, deleteConnection_eq_filter⟩
  show (deleteRemovedServers env [] (setOrder (conns.map fun c => c.server.name)) conns []).1 = []
  apply deletePass_all
  intro c hc
  have : c.server.name ∈ setOrder (conns.map fun c => c.server.name) := by
    rw [mem_setOrder]
    exact List.mem_map.mpr ⟨c, hc, rfl⟩
  simpa using this

/-- Witness for C3 at a concrete two-entry registry, with every `close()`
throwing. -/
theorem claim_C3_witness :
    (updateServerConnections [connA, connB] [] (fun _ => envCloseThrows)).1 = [] ∧
    deleteConnection [connA, connB] "a" true =
      [connA, connB].filter (fun c => !(c.server.name == "a")) :=
  ⟨(claim_C3 [connA, connB] (fun _ => envCloseThrows)).1,
   (claim_C3 [connA, connB] (fun _ => envCloseThrows)).2 [connA, connB] "a" true⟩

theorem handleRepeated_pending_length (n : Nat) :
    (handleRepeated n).pending.length = n ∧ (handleRepeated n).hasCallback = false := by
  induction n with
  | zero => exact ⟨rfl, rfl⟩
  | succ k ih =>
    unfold handleRepeated handleNotificationMessage
    rw [ih.2]
    simp [ih.1]

/-- Counterexample for C4: the pending queue of the source is *not* bounded —
`pendingNotifications.push` has no cap — so no bound `B` can dominate the
queue length across runs in which no consumer is registered. -/
theorem claim_C4_counterexample :
    ¬ ∃ B : Nat, ∀ n : Nat, (handleRepeated n).pending.length ≤ B := by
  rintro ⟨B, hB⟩
  have h := hB (B + 1)
  rw [(handleRepeated_pending_length (B + 1)).1] at h
  omega

/-- Claim C4, amended: drop the word "bounded" (the queue is unbounded).
With a callback registered the notification is delivered exactly once as
`(serverName, level, message)` and the queue is untouched; with none it is
appended FIFO; `getPendingNotifications` returns the queue in arrival order
and clears it, so an immediately following call returns `[]`. -/
theorem claim_C4_amended (st : NotifState) (serverName : String)
    (params : NotificationParams) (now : Nat) :
    (st.hasCallback = true →
      (handleNotificationMessage st serverName params now).1 = st ∧
      (handleNotificationMessage st serverName params now).2 =
        [(serverName, notificationLevel params, notificationText params)]) ∧
    (st.hasCallback = false →
      (handleNotificationMessage st serverName params now).2 = [] ∧
      (handleNotificationMessage st serverName params now).1.pending =
        st.pending ++ [{ serverName := serverName, level := notificationLevel params,
                         message := notificationText params, timestamp := now }]) ∧
    getPendingNotifications st = (st.pending, { hasCallback := st.hasCallback, pending := [] }) ∧
    (getPendingNotifications (getPendingNotifications st).2).1 = [] := by
  refine ⟨?_, ?_, rfl, rfl⟩
  · intro h
    unfold handleNotificationMessage
    rw [h]
    exact ⟨rfl, rfl⟩
  · intro h
    unfold handleNotificationMessage
    rw [h]
    exact ⟨rfl, rfl⟩

/-- Witness for the amended C4 in both routing modes. -/
theorem claim_C4_amended_witness :
    ((handleNotificationMessage { hasCallback := true, pending := [] } "s"
        { level := none, logger := none, data := some "m", message := none } 0).1 =
      { hasCallback := true, pending := [] } ∧
     (handleNotificationMessage { hasCallback := true, pending := [] } "s"
        { level := none, logger := none, data := some "m", message := none } 0).2 =
      [("s", notificationLevel { level := none, logger := none, data := some "m", message := none },
        notificationText { level := none, logger := none, data := some "m", message := none })]) ∧
    (handleNotificationMessage { hasCallback := false, pending := [] } "s"
        { level := none, logger := none, data := some "m", message := none } 0).2 = [] :=
  ⟨(claim_C4_amended { hasCallback := true, pending := [] } "s"
      { level := none, logger := none, data := some "m", message := none } 0).1 rfl,
   ((claim_C4_amended { hasCallback := false, pending := [] } "s"
      { level := none, logger := none, data := some "m", message := none } 0).2.1 rfl).1⟩

/-- Claim C5: for an unknown server name `callTool` and `readResource` fail
with the not-found error, and for a disabled server with the disabled error;
an `.error` result carries no request value, so no protocol request is
issued and no network activity happens. -/
theorem claim_C5 (conns : List McpConnection) (serverName uri toolName : String) :
    (conns.find? (fun c => c.server.name == serverName) = none →
      readResource conns serverName uri = .error (.connectionNotFound serverName) ∧
      callTool conns serverName toolName = .error (.connectionNotFound serverName)) ∧
    (∀ c, conns.find? (fun c => c.server.name == serverName) = some c →
      c.server.disabled = true →
      readResource conns serverName uri = .error (.serverDisabled serverName) ∧
      callTool conns serverName toolName = .error (.serverDisabled serverName)) := by
  constructor
  · intro h
    constructor
    · unfold readResource; rw [h]
    · unfold callTool; rw [h]
  · intro c hf hd
    constructor
    · unfold readResource; rw [hf]; simp [hd]
    · unfold callTool; rw [hf]; simp [hd]

/-- Witness for C5: a missing server name and a disabled server. -/
theorem claim_C5_witness :
    (readResource [connDisabledD] "missing" "res://x" =
        .error (.connectionNotFound "missing") ∧
      callTool [connDisabledD] "missing" "x" = .error (.connectionNotFound "missing")) ∧
    (readResource [connDisabledD] "d" "res://x" = .error (.serverDisabled "d") ∧
      callTool [connDisabledD] "d" "x" = .error (.serverDisabled "d")) :=
  ⟨(claim_C5 [connDisabledD] "missing" "res://x" "x").1 rfl,
   (claim_C5 [connDisabledD] "d" "res://x" "x").2 connDisabledD rfl rfl⟩

/-- Claim C10: `addRemoteServer` fails when the name already exists in the
settings and when the URL validator rejects the URL; on both failure paths
the returned settings file and registry are exactly the inputs (nothing is
written, no reconciliation runs) and the error is thrown. -/
theorem claim_C10 (mcpServers settingsFile : List (String × McpServerConfig))
    (conns : List McpConnection) (validUrl : String → Bool)
    (serverName serverUrl : String) (env : String → ConnectEnv) :
    ((mcpServers.lookup serverName).isSome = true →
      addRemoteServer (some mcpServers) settingsFile conns validUrl serverName serverUrl env =
        (settingsFile, conns,
          .error ("An MCP server with the name \x22" ++ serverName ++ "\x22 already exists"))) ∧
    ((mcpServers.lookup serverName).isSome = false → validUrl serverUrl = false →
      addRemoteServer (some mcpServers) settingsFile conns validUrl serverName serverUrl env =
        (settingsFile, conns,
          .error ("Invalid server URL: " ++ serverUrl ++ ". Please provide a valid URL."))) := by
  constructor
  · intro h
    simp [addRemoteServer, h]
  · intro h hurl
    simp [addRemoteServer, h, hurl]

/-- Witness for C10: adding a name that exists, and adding an invalid URL. -/
theorem claim_C10_witness :
    addRemoteServer (some [("a", cfgA)]) [("a", cfgA)] [connA]
        (fun u => u == "http://ok") "a" "http://ok" (fun _ => envDefault) =
      ([("a", cfgA)], [connA],
        .error ("An MCP server with the name \x22a\x22 already exists")) ∧
    addRemoteServer (some [("a", cfgA)]) [("a", cfgA)] [connA]
        (fun u => u == "http://ok") "b" "not a url" (fun _ => envDefault) =
      ([("a", cfgA)], [connA],
        .error ("Invalid server URL: not a url. Please provide a valid URL.")) :=
  ⟨(claim_C10 [("a", cfgA)] [("a", cfgA)] [connA] (fun u => u == "http://ok")
      "a" "http://ok" (fun _ => envDefault)).1 rfl,
   (claim_C10 [("a", cfgA)] [("a", cfgA)] [connA] (fun u => u == "http://ok")
      "b" "not a url" (fun _ => envDefault)).2 rfl rfl⟩

theorem applyToggle_cons_true (a : List String) (t : String) (ts : List String) :
    applyToggle a (t :: ts) true = applyToggle (if a.contains t then a else a ++ [t]) ts true :=
  rfl

theorem applyToggle_cons_false (a : List String) (t : String) (ts : List String) :
    applyToggle a (t :: ts) false = applyToggle (a.erase t) ts false :=
  rfl

theorem applyToggle_true_mem (ts : List String) :
    ∀ (a : List String) (x : String), x ∈ applyToggle a ts true ↔ x ∈ a ∨ x ∈ ts := by
  induction ts with
  | nil => intro a x; simp [applyToggle]
  | cons t ts ih =>
    intro a x
    rw [applyToggle_cons_true, ih]
    by_cases h : a.contains t = true
    · rw [if_pos h]
      have ht : t ∈ a := by simpa using h
      simp only [List.mem_cons]
      constructor
      · rintro (hx | hx)
        · exact .inl hx
        · exact .inr (.inr hx)
      · rintro (hx | hx | hx)
        · exact .inl hx
        · subst hx; exact .inl ht
        · exact .inr hx
    · rw [if_neg h]
      simp only [List.mem_append, List.mem_singleton, List.mem_cons]
      tauto

theorem applyToggle_true_nodup (ts : List String) :
    ∀ a : List String, a.Nodup → (applyToggle a ts true).Nodup := by
  induction ts with
  | nil => intro a h; exact h
  | cons t ts ih =>
    intro a h
    rw [applyToggle_cons_true]
    by_cases hc : a.contains t = true
    · rw [if_pos hc]; exact ih a h
    · rw [if_neg hc]
      apply ih
      rw [List.nodup_append]
      refine ⟨h, List.nodup_singleton t, ?_⟩
      intro x hx hx1
      simp only [List.mem_singleton] at hx1
      subst hx1
      exact hc (by simpa using hx)

theorem applyToggle_false_mem_nodup (ts : List String) :
    ∀ a : List String, a.Nodup →
      (applyToggle a ts false).Nodup ∧
      ∀ x, x ∈ applyToggle a ts false ↔ x ∈ a ∧ x ∉ ts := by
  induction ts with
  | nil => intro a h; exact ⟨h, by simp [applyToggle]⟩
  | cons t ts ih =>
    intro a h
    obtain ⟨ihn, ihm⟩ := ih (a.erase t) (h.erase t)
    rw [applyToggle_cons_false]
    refine ⟨ihn, fun x => ?_⟩
    rw [ihm x, List.Nodup.mem_erase_iff h]
    simp only [List.mem_cons]
    tauto

theorem applyToggle_true_fixed (ts : List String) :
    ∀ l : List String, (∀ t ∈ ts, t ∈ l) → applyToggle l ts true = l := by
  induction ts with
  | nil => intro l _; rfl
  | cons t ts ih =>
    intro l h
    rw [applyToggle_cons_true, if_pos (by simpa using h t (by simp))]
    exact ih l (fun t' ht' => h t' (by simp [ht']))

theorem applyToggle_false_fixed (ts : List String) :
    ∀ l : List String, (∀ t ∈ ts, t ∉ l) → applyToggle l ts false = l := by
  induction ts with
  | nil => intro l _; rfl
  | cons t ts ih =>
    intro l h
    rw [applyToggle_cons_false, List.erase_of_not_mem (h t (by simp))]
    exact ih l (fun t' ht' => h t' (by simp [ht']))

theorem applyToggle_idem (a ts : List String) (flag : Bool) (h : a.Nodup) :
    applyToggle (applyToggle a ts flag) ts flag = applyToggle a ts flag := by
  cases flag
  · apply applyToggle_false_fixed
    intro t ht hmem
    exact (((applyToggle_false_mem_nodup ts a h).2 t).mp hmem).2 ht
  · apply applyToggle_true_fixed
    intro t ht
    exact (applyToggle_true_mem ts a t).mpr (.inr ht)

theorem lookup_map_update (l : List (String × Option (List String))) (s : String)
    (v : List String) :
    ∀ entry, l.lookup s = some entry →
      (l.map (fun kv => if kv.1 == s then (kv.1, some v) else kv)).lookup s = some (some v) := by
  induction l with
  | nil => intro entry h; simp [List.lookup] at h
  | cons kv rest ih =>
    intro entry h
    obtain ⟨k, w⟩ := kv
    by_cases hk : k = s
    · subst hk
      simp only [List.map_cons, beq_self_eq_true, if_true]
      show List.lookup k ((k, some v) :: _) = some (some v)
      simp [List.lookup]
    · have hskf : (s == k) = false := by
        cases hb : (s == k)
        · rfl
        · exact absurd (beq_iff_eq.mp hb).symm hk
      have hksf : (k == s) = false := by
        cases hb : (k == s)
        · rfl
        · exact absurd (beq_iff_eq.mp hb) hk
      simp only [List.lookup, hskf] at h
      simp only [List.map_cons, hksf, Bool.false_eq_true, if_false]
      simp only [List.lookup, hskf]
      exact ih entry h

theorem map_update_idem (l : List (String × Option (List String))) (s : String)
    (v : List String) :
    (l.map (fun kv => if kv.1 == s then (kv.1, some v) else kv)).map
        (fun kv => if kv.1 == s then (kv.1, some v) else kv) =
      l.map (fun kv => if kv.1 == s then (kv.1, some v) else kv) := by
  induction l with
  | nil => rfl
  | cons kv rest ih =>
    simp only [List.map_cons]
    by_cases hk : (kv.1 == s) = true
    · rw [if_pos hk]
      simp only [if_pos hk, ih]
    · rw [if_neg hk]
      simp only [if_neg hk, ih]

/-- Counterexample for C9: a settings file whose stored `autoApprove` array
carries a duplicate (legal, since `toggleToolAutoApprove` reads the raw
`JSON.parse` output with no schema check).  With prior array
`["t", "t"]` (the set is the singleton of t) and `toggleToolAutoApprove(s, ["t"], false)`:
one application stores `["t"]` — not the claim's predicted prior-set-minus-toolNames,
which is empty — and a second identical application stores `[]`, so one and
two applications represent different sets. -/
theorem claim_C9_counterexample :
    toggleToolAutoApprove [("s", some ["t", "t"])] "s" ["t"] false = .ok [("s", some ["t"])] ∧
    toggleToolAutoApprove [("s", some ["t"])] "s" ["t"] false = .ok [("s", some [])] ∧
    "t" ∈ (["t"] : List String) ∧ "t" ∉ ([] : List String) :=
  ⟨rfl, rfl, by simp, by simp⟩

/-- Claim C9, amended: restricted to settings whose stored `autoApprove`
array for the server has no duplicate entries (the only arrays the hub
itself writes; the counterexample needs a hand-edited duplicate).  Then
toggling is idempotent — the second identical call rewrites the identical
file — and the re-read array represents exactly the prior set with the tool
names added (flag true) or removed (flag false), and stays duplicate-free. -/
theorem claim_C9_amended (settings : List (String × Option (List String)))
    (serverName : String) (toolNames : List String) (flag : Bool)
    (entry : Option (List String))
    (hlook : settings.lookup serverName = some entry)
    (hnd : (entry.getD []).Nodup) :
    ∃ settings₁,
      toggleToolAutoApprove settings serverName toolNames flag = .ok settings₁ ∧
      toggleToolAutoApprove settings₁ serverName toolNames flag = .ok settings₁ ∧
      settings₁.lookup serverName =
        some (some (applyToggle (entry.getD []) toolNames flag)) ∧
      (flag = true → ∀ x, x ∈ applyToggle (entry.getD []) toolNames flag ↔
        x ∈ entry.getD [] ∨ x ∈ toolNames) ∧
      (flag = false → ∀ x, x ∈ applyToggle (entry.getD []) toolNames flag ↔
        x ∈ entry.getD [] ∧ x ∉ toolNames) ∧
      (applyToggle (entry.getD []) toolNames flag).Nodup := by
  refine ⟨settings.map (fun kv => if kv.1 == serverName then
      (kv.1, some (applyToggle (entry.getD []) toolNames flag)) else kv), ?_, ?_, ?_, ?_, ?_, ?_⟩
  · unfold toggleToolAutoApprove
    rw [hlook]
  · unfold toggleToolAutoApprove
    rw [lookup_map_update settings serverName _ entry hlook]
    show Except.ok _ = Except.ok _
    rw [Option.getD_some, applyToggle_idem _ _ _ hnd, map_update_idem]
  · exact lookup_map_update settings serverName _ entry hlook
  · intro hf; subst hf
    exact fun x => applyToggle_true_mem toolNames (entry.getD []) x
  · intro hf; subst hf
    exact fun x => (applyToggle_false_mem_nodup toolNames (entry.getD []) hnd).2 x
  · cases flag
    · exact (applyToggle_false_mem_nodup toolNames (entry.getD []) hnd).1
    · exact applyToggle_true_nodup toolNames (entry.getD []) hnd

/-- Witness for the amended C9 at a concrete settings file. -/
theorem claim_C9_amended_witness :
    ∃ settings₁,
      toggleToolAutoApprove [("s", some ["t0"])] "s" ["t1"] true = .ok settings₁ ∧
      toggleToolAutoApprove settings₁ "s" ["t1"] true = .ok settings₁ ∧
      settings₁.lookup "s" =
        some (some (applyToggle ((some ["t0"]).getD []) ["t1"] true)) ∧
      (true = true → ∀ x, x ∈ applyToggle ((some ["t0"]).getD []) ["t1"] true ↔
        x ∈ (some ["t0"]).getD [] ∨ x ∈ ["t1"]) ∧
      (true = false → ∀ x, x ∈ applyToggle ((some ["t0"]).getD []) ["t1"] true ↔
        x ∈ (some ["t0"]).getD [] ∧ x ∉ ["t1"]) ∧
      (applyToggle ((some ["t0"]).getD []) ["t1"] true).Nodup :=
  claim_C9_amended [("s", some ["t0"])] "s" ["t1"] true (some ["t0"]) rfl (by simp)

theorem find?_pushed (st : List McpConnection) (n : String) (e : McpConnection)
    (hname : e.server.name = n) :
    (st.filter (fun c => !(c.server.name == n)) ++ [e]).find?
      (fun c => c.server.name == n) = some e := by
  rw [find?_eq_head?_filter]
  show (connsNamed n (st.filter (fun c => !(c.server.name == n)) ++ [e])).head? = some e
  rw [connsNamed_append, connsNamed_filter_out, List.nil_append]
  simp [connsNamed, hname]

theorem reconcileLoop_connected_event (env : String → ConnectEnv)
    (pre post : List (String × McpServerConfig)) (name : String) (cfg : McpServerConfig)
    (st : List McpConnection) (evs : List ReconcileEvent)
    (hpre : name ∉ pre.map Prod.fst)
    (hnone : st.find? (fun c => c.server.name == name) = none) :
    ReconcileEvent.connected name ∈
      (reconcileLoop env (pre ++ (name, cfg) :: post) st evs).2 := by
  rw [reconcileLoop_append]
  have hS1 : (reconcileLoop env pre st evs).1.find? (fun c => c.server.name == name) = none := by
    rw [find?_name_of_connsNamed, connsNamed_loop_other env pre name st evs hpre,
      ← find?_name_of_connsNamed, hnone]
  show ReconcileEvent.connected name ∈
    (reconcileLoop env post
      (reconcileStep env (reconcileLoop env pre st evs).1 name cfg).1
      ((reconcileLoop env pre st evs).2 ++
        (reconcileStep env (reconcileLoop env pre st evs).1 name cfg).2)).2
  rw [reconcileLoop_shift, reconcileStep_none_eq env _ name cfg hS1]
  simp

/-- During any reconciliation pass, every desired name with no current
registry entry gets a `connectToServer` call, whatever happens to the other
servers (their failures are caught by the loop). -/
theorem reconcile_connected_event (conns : List McpConnection)
    (desired : List (String × McpServerConfig)) (env : String → ConnectEnv)
    (name : String) (cfg : McpServerConfig)
    (hmem : (name, cfg) ∈ desired) (hnd : (desired.map Prod.fst).Nodup)
    (hnew : ∀ c ∈ conns, c.server.name ≠ name) :
    ReconcileEvent.connected name ∈ (updateServerConnections conns desired env).2 := by
  obtain ⟨pre, post, heq⟩ := List.append_of_mem hmem
  subst heq
  rw [List.map_append, List.map_cons, List.nodup_append] at hnd
  obtain ⟨hnd1, hnd2, hdisj⟩ := hnd
  have hpre : name ∉ pre.map Prod.fst := fun hmem2 => (hdisj hmem2) (List.mem_cons_self _ _)
  show ReconcileEvent.connected name ∈
    (reconcileLoop env (pre ++ (name, cfg) :: post)
      (deleteRemovedServers env ((pre ++ (name, cfg) :: post).map Prod.fst)
        (setOrder (conns.map fun c => c.server.name)) conns []).1
      (deleteRemovedServers env ((pre ++ (name, cfg) :: post).map Prod.fst)
        (setOrder (conns.map fun c => c.server.name)) conns []).2).2
  apply reconcileLoop_connected_event env pre post name cfg _ _ hpre
  have hcontains : ((pre ++ (name, cfg) :: post).map Prod.fst).contains name = true := by
    simp
  rw [find?_name_of_connsNamed,
    connsNamed_deletePass env _ _ conns [] name hcontains,
    ← find?_name_of_connsNamed]
  rw [List.find?_eq_none]
  intro c hc
  simpa using hnew c hc

/-- Counterexample for C6: a `connectToServer` failure during transport
construction or `transport.start()` happens before the connection object is
pushed, so the failed creation leaves no registry entry at all for the name —
the claim's promised disconnected entry does not exist. -/
theorem claim_C6_counterexample :
    (connectToServer [] "a" cfgA envSetupFail).2 = some "boom" ∧
    (connectToServer [] "a" cfgA envSetupFail).1 = [] :=
  ⟨rfl, rfl⟩

/-- Claim C6, amended: a creation failure *after the connection object is
registered* (the `client.connect` handshake throw) leaves a visible entry
with status disconnected and the failure message appended to its error text;
a failure before the push (transport construction or `start()`) leaves no
entry.  In every case the reconcile loop catches the exception, and each
remaining new server still gets its `connectToServer` call. -/
theorem claim_C6_amended (st : List McpConnection) (n msg : String)
    (cfg : McpServerConfig) (env : ConnectEnv)
    (hd : cfg.disabled = false) (hp : env.phase = .handshakeFailure msg) :
    (∃ c, (connectToServer st n cfg env).1 =
        st.filter (fun cc => !(cc.server.name == n)) ++ [c] ∧
      c.server.name = n ∧ c.server.status = .disconnected ∧ c.server.error = msg ∧
      (connectToServer st n cfg env).2 = some msg) ∧
    ∀ (conns : List McpConnection) (desired : List (String × McpServerConfig))
      (env2 : String → ConnectEnv) (name2 : String) (cfg2 : McpServerConfig),
      (name2, cfg2) ∈ desired → (desired.map Prod.fst).Nodup →
      (∀ c ∈ conns, c.server.name ≠ name2) →
      ReconcileEvent.connected name2 ∈ (updateServerConnections conns desired env2).2 := by
  constructor
  · have hdne : ¬ cfg.disabled = true := by simp [hd]
    unfold connectToServer
    rw [if_neg hdne, hp]
    exact ⟨_, rfl, rfl, rfl, rfl, rfl⟩
  · intro conns desired env2 name2 cfg2 hmem hnd hnew
    exact reconcile_connected_event conns desired env2 name2 cfg2 hmem hnd hnew

/-- Witness for the amended C6: a handshake failure on an empty registry,
and a two-server pass in which the first server's connect fails at setup
while the second is still attempted. -/
theorem claim_C6_amended_witness :
    (∃ c, (connectToServer [] "a" cfgA envHandshakeFail).1 =
        [].filter (fun cc => !(cc.server.name == "a")) ++ [c] ∧
      c.server.name = "a" ∧ c.server.status = .disconnected ∧ c.server.error = "refused" ∧
      (connectToServer [] "a" cfgA envHandshakeFail).2 = some "refused") ∧
    ReconcileEvent.connected "b" ∈
      (updateServerConnections [] [("a", cfgA), ("b", cfgB)]
        (fun nm => if nm == "a" then envSetupFail else envDefault)).2 :=
  ⟨(claim_C6_amended [] "a" "refused" cfgA envHandshakeFail rfl rfl).1,
   (claim_C6_amended [] "a" "refused" cfgA envHandshakeFail rfl rfl).2
     [] [("a", cfgA), ("b", cfgB)] (fun nm => if nm == "a" then envSetupFail else envDefault)
     "b" cfgB (by simp) (by simp) (by simp)⟩

/-- Claim C7: after a successful connect of an enabled config, the new
registry entry is `connected` with a clear error, and each discovery
category is empty exactly when its own request failed, while a delivered
reply populates its own category untouched by the other two. -/
theorem claim_C7 (st : List McpConnection) (n : String) (cfg : McpServerConfig)
    (env : ConnectEnv) (hd : cfg.disabled = false) (hp : env.phase = .success) :
    ∃ c, (connectToServer st n cfg env).1 =
        st.filter (fun cc => !(cc.server.name == n)) ++ [c] ∧
      (connectToServer st n cfg env).2 = none ∧
      c.server.name = n ∧ c.server.status = .connected ∧ c.server.error = "" ∧
      (env.toolsResponse = none → c.server.tools = []) ∧
      (∀ ts, env.toolsResponse = some ts → c.server.tools =
        ts.map (fun t => { name := t, autoApprove := env.settingsAutoApprove.contains t })) ∧
      (env.resourcesResponse = none → c.server.resources = []) ∧
      (∀ rs, env.resourcesResponse = some rs → c.server.resources = rs) ∧
      (env.templatesResponse = none → c.server.resourceTemplates = []) ∧
      (∀ tps, env.templatesResponse = some tps → c.server.resourceTemplates = tps) := by
  have hdne : ¬ cfg.disabled = true := by simp [hd]
  unfold connectToServer
  rw [if_neg hdne, hp]
  refine ⟨_, rfl, rfl, rfl, rfl, rfl, ?_, ?_, ?_, ?_, ?_, ?_⟩
  · intro h
    show fetchToolsList _ n env.toolsResponse env.settingsAutoApprove = []
    rw [fetchToolsList.eq_def]
    simp only [find?_pushed]
    simp [hd, h]
  · intro ts h
    show fetchToolsList _ n env.toolsResponse env.settingsAutoApprove = _
    rw [fetchToolsList.eq_def]
    simp only [find?_pushed]
    simp [hd, h]
  · intro h
    show fetchResourcesList _ n env.resourcesResponse = []
    rw [fetchResourcesList.eq_def]
    simp only [find?_pushed]
    simp [hd, h]
  · intro rs h
    show fetchResourcesList _ n env.resourcesResponse = _
    rw [fetchResourcesList.eq_def]
    simp only [find?_pushed]
    simp [hd, h]
  · intro h
    show fetchResourceTemplatesList _ n env.templatesResponse = []
    rw [fetchResourceTemplatesList.eq_def]
    simp only [find?_pushed]
    simp [hd, h]
  · intro tps h
    show fetchResourceTemplatesList _ n env.templatesResponse = _
    rw [fetchResourceTemplatesList.eq_def]
    simp only [find?_pushed]
    simp [hd, h]

/-- Witness for C7: the `tools/list` request fails while resources and
resource templates are delivered; only the tools cache is empty and the
entry is connected. -/
theorem claim_C7_witness :
    ∃ c, (connectToServer [] "a" cfgA envToolsFail).1 =
        [].filter (fun cc => !(cc.server.name == "a")) ++ [c] ∧
      (connectToServer [] "a" cfgA envToolsFail).2 = none ∧
      c.server.name = "a" ∧ c.server.status = .connected ∧ c.server.error = "" ∧
      (envToolsFail.toolsResponse = none → c.server.tools = []) ∧
      (∀ ts, envToolsFail.toolsResponse = some ts → c.server.tools =
        ts.map (fun t => { name := t, autoApprove := envToolsFail.settingsAutoApprove.contains t })) ∧
      (envToolsFail.resourcesResponse = none → c.server.resources = []) ∧
      (∀ rs, envToolsFail.resourcesResponse = some rs → c.server.resources = rs) ∧
      (envToolsFail.templatesResponse = none → c.server.resourceTemplates = []) ∧
      (∀ tps, envToolsFail.templatesResponse = some tps → c.server.resourceTemplates = tps) :=
  claim_C7 [] "a" cfgA envToolsFail rfl rfl

theorem connsNamed_update_start (conns : List McpConnection)
    (desired : List (String × McpServerConfig)) (env : String → ConnectEnv)
    (name : String) (hname : name ∈ desired.map Prod.fst) :
    connsNamed name (deleteRemovedServers env (desired.map Prod.fst)
      (setOrder (conns.map fun c => c.server.name)) conns []).1 = connsNamed name conns := by
  apply connsNamed_deletePass
  simpa using hname

theorem reconcileLoop_recreate_event (env : String → ConnectEnv)
    (pre post : List (String × McpServerConfig)) (name : String) (cfg : McpServerConfig)
    (st : List McpConnection) (evs : List ReconcileEvent) (c : McpConnection)
    (hpre : name ∉ pre.map Prod.fst)
    (hf : st.find? (fun cc => cc.server.name == name) = some c)
    (hne : c.server.config ≠ cfg) :
    ReconcileEvent.deleted name ∈
        (reconcileLoop env (pre ++ (name, cfg) :: post) st evs).2 ∧
      ReconcileEvent.connected name ∈
        (reconcileLoop env (pre ++ (name, cfg) :: post) st evs).2 := by
  rw [reconcileLoop_append]
  have hS1 : (reconcileLoop env pre st evs).1.find?
      (fun cc => cc.server.name == name) = some c := by
    rw [find?_name_of_connsNamed, connsNamed_loop_other env pre name st evs hpre,
      ← find?_name_of_connsNamed, hf]
  show _ ∈ (reconcileLoop env post
      (reconcileStep env (reconcileLoop env pre st evs).1 name cfg).1
      ((reconcileLoop env pre st evs).2 ++
        (reconcileStep env (reconcileLoop env pre st evs).1 name cfg).2)).2 ∧
    _ ∈ (reconcileLoop env post
      (reconcileStep env (reconcileLoop env pre st evs).1 name cfg).1
      ((reconcileLoop env pre st evs).2 ++
        (reconcileStep env (reconcileLoop env pre st evs).1 name cfg).2)).2
  rw [reconcileLoop_shift, reconcileStep_recreate_eq env _ name cfg c hS1 hne]
  constructor <;> simp

theorem reconcileLoop_new_entry (env : String → ConnectEnv)
    (pre post : List (String × McpServerConfig)) (name : String) (cfg : McpServerConfig)
    (st : List McpConnection) (evs : List ReconcileEvent)
    (hpre : name ∉ pre.map Prod.fst) (hpost : name ∉ post.map Prod.fst)
    (hnone : st.find? (fun cc => cc.server.name == name) = none)
    (hok : cfg.disabled = true ∨ (env name).phase = .success) :
    ∃ c ∈ (reconcileLoop env (pre ++ (name, cfg) :: post) st evs).1,
      c.server.name = name := by
  rw [reconcileLoop_append]
  have hS1 : (reconcileLoop env pre st evs).1.find?
      (fun cc => cc.server.name == name) = none := by
    rw [find?_name_of_connsNamed, connsNamed_loop_other env pre name st evs hpre,
      ← find?_name_of_connsNamed, hnone]
  have hstep := reconcileStep_none_eq env (reconcileLoop env pre st evs).1 name cfg hS1
  have hstep1 : (reconcileStep env (reconcileLoop env pre st evs).1 name cfg).1 =
      (connectToServer (reconcileLoop env pre st evs).1 name cfg (env name)).1 := by
    rw [hstep]
  show ∃ c ∈ (reconcileLoop env post
      (reconcileStep env (reconcileLoop env pre st evs).1 name cfg).1
      ((reconcileLoop env pre st evs).2 ++
        (reconcileStep env (reconcileLoop env pre st evs).1 name cfg).2)).1,
    c.server.name = name
  obtain ⟨c, hc, hcname⟩ :=
    connectToServer_creates (reconcileLoop env pre st evs).1 name cfg (env name) hok
  refine ⟨c, ?_, hcname⟩
  have hpres := connsNamed_loop_other env post name
    (reconcileStep env (reconcileLoop env pre st evs).1 name cfg).1
    ((reconcileLoop env pre st evs).2 ++
      (reconcileStep env (reconcileLoop env pre st evs).1 name cfg).2) hpost
  have hcin : c ∈ connsNamed name
      (reconcileStep env (reconcileLoop env pre st evs).1 name cfg).1 := by
    rw [hstep1, hc]
    exact List.mem_singleton_self c
  rw [← hpres] at hcin
  exact List.mem_of_mem_filter hcin

theorem reconcileLoop_untouched_mem (env : String → ConnectEnv)
    (pre post : List (String × McpServerConfig)) (name : String) (cfg : McpServerConfig)
    (st : List McpConnection) (evs : List ReconcileEvent) (c : McpConnection)
    (hpre : name ∉ pre.map Prod.fst) (hpost : name ∉ post.map Prod.fst)
    (hf : st.find? (fun cc => cc.server.name == name) = some c)
    (hcfg : c.server.config = cfg) :
    c ∈ (reconcileLoop env (pre ++ (name, cfg) :: post) st evs).1 := by
  rw [reconcileLoop_append]
  have hS1 : (reconcileLoop env pre st evs).1.find?
      (fun cc => cc.server.name == name) = some c := by
    rw [find?_name_of_connsNamed, connsNamed_loop_other env pre name st evs hpre,
      ← find?_name_of_connsNamed, hf]
  have hstep := reconcileStep_noop_eq env (reconcileLoop env pre st evs).1 name cfg c hS1 hcfg
  have hstep1 : (reconcileStep env (reconcileLoop env pre st evs).1 name cfg).1 =
      (reconcileLoop env pre st evs).1 := by
    rw [hstep]
  show c ∈ (reconcileLoop env post
      (reconcileStep env (reconcileLoop env pre st evs).1 name cfg).1
      ((reconcileLoop env pre st evs).2 ++
        (reconcileStep env (reconcileLoop env pre st evs).1 name cfg).2)).1
  have hpres := connsNamed_loop_other env post name
    (reconcileStep env (reconcileLoop env pre st evs).1 name cfg).1
    ((reconcileLoop env pre st evs).2 ++
      (reconcileStep env (reconcileLoop env pre st evs).1 name cfg).2) hpost
  have hcin : c ∈ connsNamed name
      (reconcileStep env (reconcileLoop env pre st evs).1 name cfg).1 := by
    rw [hstep1, connsNamed_loop_other env pre name st evs hpre]
    have hpred := List.find?_some hf
    exact List.mem_filter.mpr ⟨List.mem_of_find?_eq_some hf, hpred⟩
  rw [← hpres] at hcin
  exact List.mem_of_mem_filter hcin

theorem reconcileLoop_untouched_events (env : String → ConnectEnv)
    (pre post : List (String × McpServerConfig)) (name : String) (cfg : McpServerConfig)
    (st : List McpConnection) (evs : List ReconcileEvent) (c : McpConnection)
    (hpre : name ∉ pre.map Prod.fst) (hpost : name ∉ post.map Prod.fst)
    (hf : st.find? (fun cc => cc.server.name == name) = some c)
    (hcfg : c.server.config = cfg) :
    ∀ e ∈ (reconcileLoop env (pre ++ (name, cfg) :: post) st evs).2,
      e ∈ evs ∨ e.name ≠ name := by
  intro e he
  rw [reconcileLoop_append] at he
  have hS1 : (reconcileLoop env pre st evs).1.find?
      (fun cc => cc.server.name == name) = some c := by
    rw [find?_name_of_connsNamed, connsNamed_loop_other env pre name st evs hpre,
      ← find?_name_of_connsNamed, hf]
  have hstep := reconcileStep_noop_eq env (reconcileLoop env pre st evs).1 name cfg c hS1 hcfg
  have he' : e ∈ (reconcileLoop env post
      (reconcileStep env (reconcileLoop env pre st evs).1 name cfg).1
      ((reconcileLoop env pre st evs).2 ++
        (reconcileStep env (reconcileLoop env pre st evs).1 name cfg).2)).2 := he
  rw [hstep] at he'
  rcases reconcileLoop_events env post _ _ e he' with hin | hname
  · simp only [List.append_nil] at hin
    rcases reconcileLoop_events env pre st evs e hin with hin2 | hname2
    · exact .inl hin2
    · exact .inr (fun hh => hpre (hh ▸ hname2))
  · exact .inr (fun hh => hpost (hh ▸ hname))

/-- During any reconciliation pass with unique desired keys, a registry
entry whose stored config structurally equals the desired config survives
the pass as the very same value, and no event of the pass refers to its
name. -/
theorem reconcile_untouched (conns : List McpConnection)
    (desired : List (String × McpServerConfig)) (env : String → ConnectEnv)
    (name : String) (cfg : McpServerConfig) (c : McpConnection)
    (hmem : (name, cfg) ∈ desired) (hnd : (desired.map Prod.fst).Nodup)
    (hf : conns.find? (fun cc => cc.server.name == name) = some c)
    (hcfg : c.server.config = cfg) :
    c ∈ (updateServerConnections conns desired env).1 ∧
    ∀ e ∈ (updateServerConnections conns desired env).2, e.name ≠ name := by
  obtain ⟨pre, post, heq⟩ := List.append_of_mem hmem
  subst heq
  rw [List.map_append, List.map_cons, List.nodup_append] at hnd
  obtain ⟨hnd1, hnd2, hdisj⟩ := hnd
  have hpost : name ∉ post.map Prod.fst := (List.nodup_cons.mp hnd2).1
  have hpre : name ∉ pre.map Prod.fst :=
    fun hmem2 => (hdisj hmem2) (List.mem_cons_self _ _)
  have hnameIn : name ∈ (pre ++ (name, cfg) :: post).map Prod.fst := by simp
  have hfD : (deleteRemovedServers env ((pre ++ (name, cfg) :: post).map Prod.fst)
      (setOrder (conns.map fun cc => cc.server.name)) conns []).1.find?
      (fun cc => cc.server.name == name) = some c := by
    rw [find?_name_of_connsNamed,
      connsNamed_update_start conns (pre ++ (name, cfg) :: post) env name hnameIn,
      ← find?_name_of_connsNamed, hf]
  constructor
  · exact reconcileLoop_untouched_mem env pre post name cfg _ _ c hpre hpost hfD hcfg
  · intro e he
    have := reconcileLoop_untouched_events env pre post name cfg _ _ c hpre hpost hfD hcfg e he
    rcases this with hin | hne
    · rcases deletePass_events env _ _ conns [] e hin with hnil | ⟨n', hn', hcontains⟩
      · simp at hnil
      · subst hn'
        intro hh
        have hn'name : n' = name := hh
        rw [hn'name] at hcontains
        rw [show ((pre ++ (name, cfg) :: post).map Prod.fst).contains name = true from
          by simpa using hnameIn] at hcontains
        cases hcontains
    · exact hne

/-- During any reconciliation pass with unique desired keys, a desired name
whose stored config differs structurally from the desired config gets a
`deleteConnection` call and a `connectToServer` call. -/
theorem reconcile_recreate (conns : List McpConnection)
    (desired : List (String × McpServerConfig)) (env : String → ConnectEnv)
    (name : String) (cfg : McpServerConfig) (c : McpConnection)
    (hmem : (name, cfg) ∈ desired) (hnd : (desired.map Prod.fst).Nodup)
    (hf : conns.find? (fun cc => cc.server.name == name) = some c)
    (hne : c.server.config ≠ cfg) :
    ReconcileEvent.deleted name ∈ (updateServerConnections conns desired env).2 ∧
    ReconcileEvent.connected name ∈ (updateServerConnections conns desired env).2 := by
  obtain ⟨pre, post, heq⟩ := List.append_of_mem hmem
  subst heq
  rw [List.map_append, List.map_cons, List.nodup_append] at hnd
  obtain ⟨hnd1, hnd2, hdisj⟩ := hnd
  have hpre : name ∉ pre.map Prod.fst :=
    fun hmem2 => (hdisj hmem2) (List.mem_cons_self _ _)
  have hnameIn : name ∈ (pre ++ (name, cfg) :: post).map Prod.fst := by simp
  have hfD : (deleteRemovedServers env ((pre ++ (name, cfg) :: post).map Prod.fst)
      (setOrder (conns.map fun cc => cc.server.name)) conns []).1.find?
      (fun cc => cc.server.name == name) = some c := by
    rw [find?_name_of_connsNamed,
      connsNamed_update_start conns (pre ++ (name, cfg) :: post) env name hnameIn,
      ← find?_name_of_connsNamed, hf]
  exact reconcileLoop_recreate_event env pre post name cfg _ _ c hpre hfD hne

/-- During any reconciliation pass with unique desired keys, a desired name
with no current entry whose connect can complete (disabled config, or a
successful handshake in the environment) ends with a registry entry. -/
theorem reconcile_new_entry (conns : List McpConnection)
    (desired : List (String × McpServerConfig)) (env : String → ConnectEnv)
    (name : String) (cfg : McpServerConfig)
    (hmem : (name, cfg) ∈ desired) (hnd : (desired.map Prod.fst).Nodup)
    (hnew : ∀ c ∈ conns, c.server.name ≠ name)
    (hok : cfg.disabled = true ∨ (env name).phase = .success) :
    ∃ c ∈ (updateServerConnections conns desired env).1, c.server.name = name := by
  obtain ⟨pre, post, heq⟩ := List.append_of_mem hmem
  subst heq
  rw [List.map_append, List.map_cons, List.nodup_append] at hnd
  obtain ⟨hnd1, hnd2, hdisj⟩ := hnd
  have hpost : name ∉ post.map Prod.fst := (List.nodup_cons.mp hnd2).1
  have hpre : name ∉ pre.map Prod.fst :=
    fun hmem2 => (hdisj hmem2) (List.mem_cons_self _ _)
  have hnameIn : name ∈ (pre ++ (name, cfg) :: post).map Prod.fst := by simp
  have hfD : (deleteRemovedServers env ((pre ++ (name, cfg) :: post).map Prod.fst)
      (setOrder (conns.map fun cc => cc.server.name)) conns []).1.find?
      (fun cc => cc.server.name == name) = none := by
    rw [find?_name_of_connsNamed,
      connsNamed_update_start conns (pre ++ (name, cfg) :: post) env name hnameIn,
      ← find?_name_of_connsNamed]
    rw [List.find?_eq_none]
    intro cc hcc
    simpa using hnew cc hcc
  exact reconcileLoop_new_entry env pre post name cfg _ _ hpre hpost hfD hok

/-- During any reconciliation pass in which every current entry has a
structurally equal desired config and vice versa (names unique on both
sides), nothing is deleted, created or changed. -/
theorem reconcile_noop (conns : List McpConnection)
    (desired : List (String × McpServerConfig)) (env : String → ConnectEnv)
    (hconnnd : (conns.map (fun c => c.server.name)).Nodup)
    (h1 : ∀ c ∈ conns, (c.server.name, c.server.config) ∈ desired)
    (h2 : ∀ p ∈ desired, ∃ c ∈ conns, c.server.name = p.1 ∧ c.server.config = p.2) :
    updateServerConnections conns desired env = (conns, []) := by
  have hdel : deleteRemovedServers env (desired.map Prod.fst)
      (setOrder (conns.map fun c => c.server.name)) conns [] = (conns, []) := by
    apply deletePass_noop
    intro n hn
    rw [mem_setOrder] at hn
    obtain ⟨c, hc, hcn⟩ := List.mem_map.mp hn
    subst hcn
    have := h1 c hc
    simp only [List.contains_eq_any_beq, List.any_eq_true]
    exact ⟨c.server.name, List.mem_map.mpr ⟨(c.server.name, c.server.config), this, rfl⟩,
      beq_self_eq_true _⟩
  show reconcileLoop env desired
      (deleteRemovedServers env (desired.map Prod.fst)
        (setOrder (conns.map fun c => c.server.name)) conns []).1
      (deleteRemovedServers env (desired.map Prod.fst)
        (setOrder (conns.map fun c => c.server.name)) conns []).2 = (conns, [])
  rw [hdel]
  apply reconcileLoop_noop
  intro p hp
  obtain ⟨c0, hc0, hname, hcfg⟩ := h2 p hp
  cases hfind : conns.find? (fun cc => cc.server.name == p.1) with
  | none =>
    rw [List.find?_eq_none] at hfind
    exact absurd (by simp [hname]) (hfind c0 hc0)
  | some c1 =>
    refine ⟨c1, rfl, ?_⟩
    have h1mem := List.mem_of_find?_eq_some hfind
    have h1name : c1.server.name = p.1 := by simpa using List.find?_some hfind
    have hc10 : c1 = c0 :=
      List.inj_on_of_nodup_map hconnnd h1mem hc0 (by rw [h1name, hname])
    rw [hc10, hcfg]

/-- Claim C2: in a reconciliation pass over a desired mapping (unique keys,
as JavaScript object keys are): a desired name with no current entry gets a
`connectToServer` call — and, whenever that connect can complete, an entry —
a desired name whose stored serialized config differs structurally from the
new config gets a `deleteConnection` call and a `connectToServer` call, a
desired name with a structurally unchanged config keeps its registry entry
as the very same value with no event naming it, and a desired set
structurally equal to the current live configs leaves the registry exactly
unchanged with no deletion or creation at all. -/
theorem claim_C2 (conns : List McpConnection)
    (desired : List (String × McpServerConfig)) (env : String → ConnectEnv)
    (hnd : (desired.map Prod.fst).Nodup) :
    (∀ name cfg, (name, cfg) ∈ desired → (∀ c ∈ conns, c.server.name ≠ name) →
      ReconcileEvent.connected name ∈ (updateServerConnections conns desired env).2 ∧
      (cfg.disabled = true ∨ (env name).phase = .success →
        ∃ c ∈ (updateServerConnections conns desired env).1, c.server.name = name)) ∧
    (∀ name cfg c, (name, cfg) ∈ desired →
      conns.find? (fun cc => cc.server.name == name) = some c →
      c.server.config ≠ cfg →
      ReconcileEvent.deleted name ∈ (updateServerConnections conns desired env).2 ∧
      ReconcileEvent.connected name ∈ (updateServerConnections conns desired env).2) ∧
    (∀ name cfg c, (name, cfg) ∈ desired →
      conns.find? (fun cc => cc.server.name == name) = some c →
      c.server.config = cfg →
      c ∈ (updateServerConnections conns desired env).1 ∧
      ∀ e ∈ (updateServerConnections conns desired env).2, e.name ≠ name) ∧
    ((conns.map (fun c => c.server.name)).Nodup →
      (∀ c ∈ conns, (c.server.name, c.server.config) ∈ desired) →
      (∀ p ∈ desired, ∃ c ∈ conns, c.server.name = p.1 ∧ c.server.config = p.2) →
      updateServerConnections conns desired env = (conns, [])) := by
  refine ⟨?_, ?_, ?_, ?_⟩
  · intro name cfg hmem hnew
    exact ⟨reconcile_connected_event conns desired env name cfg hmem hnd hnew,
      fun hok => reconcile_new_entry conns desired env name cfg hmem hnd hnew hok⟩
  · intro name cfg c hmem hf hne
    exact reconcile_recreate conns desired env name cfg c hmem hnd hf hne
  · intro name cfg c hmem hf hcfg
    exact reconcile_untouched conns desired env name cfg c hmem hnd hf hcfg
  · intro hconnnd h1 h2
    exact reconcile_noop conns desired env hconnnd h1 h2

/-- Witness for C2: a pass that creates a new server, recreates a changed
one, and a pass over the unchanged set that is a strict no-op. -/
theorem claim_C2_witness :
    (ReconcileEvent.connected "c" ∈
        (updateServerConnections [connA, connB]
          [("a", cfgA), ("b", cfgB), ("c", McpServerConfig.sse "http://localhost/c" [] false 60 [])]
          (fun _ => envDefault)).2) ∧
    (ReconcileEvent.deleted "b" ∈
        (updateServerConnections [connA, connB]
          [("a", cfgA), ("b", cfgB.setDisabled true)] (fun _ => envDefault)).2 ∧
      ReconcileEvent.connected "b" ∈
        (updateServerConnections [connA, connB]
          [("a", cfgA), ("b", cfgB.setDisabled true)] (fun _ => envDefault)).2) ∧
    (connA ∈ (updateServerConnections [connA, connB]
        [("a", cfgA), ("b", cfgB.setDisabled true)] (fun _ => envDefault)).1) ∧
    updateServerConnections [connA, connB] [("a", cfgA), ("b", cfgB)]
        (fun _ => envDefault) = ([connA, connB], []) :=
  ⟨((claim_C2 [connA, connB]
      [("a", cfgA), ("b", cfgB), ("c", McpServerConfig.sse "http://localhost/c" [] false 60 [])]
      (fun _ => envDefault) (by decide)).1 "c"
      (McpServerConfig.sse "http://localhost/c" [] false 60 []) (by decide) (by decide)).1,
   (claim_C2 [connA, connB] [("a", cfgA), ("b", cfgB.setDisabled true)]
      (fun _ => envDefault) (by decide)).2.1 "b" (cfgB.setDisabled true) connB
      (by decide) (by decide) (by decide),
   ((claim_C2 [connA, connB] [("a", cfgA), ("b", cfgB.setDisabled true)]
      (fun _ => envDefault) (by decide)).2.2.1 "a" cfgA connA
      (by decide) (by decide) (by decide)).1,
   (claim_C2 [connA, connB] [("a", cfgA), ("b", cfgB)]
      (fun _ => envDefault) (by decide)).2.2.2 (by decide) (by decide) (by decide)⟩

theorem jsIndexOf_nonneg_or (l : List String) (s : String) :
    jsIndexOf l s = -1 ∨ 0 ≤ jsIndexOf l s := by
  induction l with
  | nil => exact .inl rfl
  | cons x xs ih =>
    rw [jsIndexOf]
    by_cases h : (x == s) = true
    · rw [if_pos h]
      exact .inr (by norm_num)
    · rw [if_neg h]
      rcases ih with h1 | h1
      · rw [if_pos (by simp [h1])]
        exact .inl rfl
      · rw [if_neg (by simp only [beq_iff_eq]; omega)]
        exact .inr (by omega)

theorem jsIndexOf_mem (l : List String) (s : String) : s ∈ l ↔ jsIndexOf l s ≠ -1 := by
  induction l with
  | nil => simp [jsIndexOf]
  | cons x xs ih =>
    rw [jsIndexOf]
    by_cases h : (x == s) = true
    · have hx : x = s := beq_iff_eq.mp h
      subst hx
      rw [if_pos h]
      simp
    · have hxs : x ≠ s := fun hh => h (by simp [hh])
      rw [if_neg h]
      by_cases h1 : jsIndexOf xs s = -1
      · rw [if_pos (by simp [h1])]
        constructor
        · intro hmem
          rcases List.mem_cons.mp hmem with hh | hh
          · exact absurd hh.symm hxs
          · exact absurd h1 (ih.mp hh)
        · intro habs
          exact absurd rfl habs
      · rw [if_neg (by simp only [beq_iff_eq]; exact h1)]
        have h0 : 0 ≤ jsIndexOf xs s := by
          rcases jsIndexOf_nonneg_or xs s with hh | hh
          · exact absurd hh h1
          · exact hh
        constructor
        · intro _; omega
        · intro _; exact List.mem_cons_of_mem x (ih.mpr h1)

theorem jsIndexOf_inj (l : List String) (a b : String) (ha : a ∈ l) (hb : b ∈ l)
    (h : jsIndexOf l a = jsIndexOf l b) : a = b := by
  induction l with
  | nil => cases ha
  | cons x xs ih =>
    rw [jsIndexOf, jsIndexOf] at h
    by_cases hxa : (x == a) = true
    · by_cases hxb : (x == b) = true
      · exact (beq_iff_eq.mp hxa).symm.trans (beq_iff_eq.mp hxb)
      · rw [if_pos hxa, if_neg hxb] at h
        have hbxs : b ∈ xs := by
          rcases List.mem_cons.mp hb with hh | hh
          · exact absurd (by simp [hh]) hxb
          · exact hh
        have hrb := (jsIndexOf_mem xs b).mp hbxs
        have h0 : 0 ≤ jsIndexOf xs b := by
          rcases jsIndexOf_nonneg_or xs b with hh | hh
          · exact absurd hh hrb
          · exact hh
        rw [if_neg (by simp only [beq_iff_eq]; exact hrb)] at h
        omega
    · by_cases hxb : (x == b) = true
      · rw [if_neg hxa, if_pos hxb] at h
        have haxs : a ∈ xs := by
          rcases List.mem_cons.mp ha with hh | hh
          · exact absurd (by simp [hh]) hxa
          · exact hh
        have hra := (jsIndexOf_mem xs a).mp haxs
        have h0 : 0 ≤ jsIndexOf xs a := by
          rcases jsIndexOf_nonneg_or xs a with hh | hh
          · exact absurd hh hra
          · exact hh
        rw [if_neg (by simp only [beq_iff_eq]; exact hra)] at h
        omega
      · rw [if_neg hxa, if_neg hxb] at h
        have haxs : a ∈ xs := by
          rcases List.mem_cons.mp ha with hh | hh
          · exact absurd (by simp [hh]) hxa
          · exact hh
        have hbxs : b ∈ xs := by
          rcases List.mem_cons.mp hb with hh | hh
          · exact absurd (by simp [hh]) hxb
          · exact hh
        have hra := (jsIndexOf_mem xs a).mp haxs
        have hrb := (jsIndexOf_mem xs b).mp hbxs
        rw [if_neg (by simp only [beq_iff_eq]; exact hra),
          if_neg (by simp only [beq_iff_eq]; exact hrb)] at h
        exact ih haxs hbxs (by omega)

theorem insertionSort_strict_sorted (serverOrder : List String)
    (conns : List McpConnection)
    (h1 : (conns.map (fun c => c.server.name)).Nodup)
    (h2 : ∀ c ∈ conns, c.server.name ∈ serverOrder) :
    (List.insertionSort
        (fun a b => jsIndexOf serverOrder a.server.name ≤ jsIndexOf serverOrder b.server.name)
        conns).Pairwise
      (fun a b => jsIndexOf serverOrder a.server.name < jsIndexOf serverOrder b.server.name) := by
  haveI hTot : IsTotal McpConnection
      (fun a b => jsIndexOf serverOrder a.server.name ≤ jsIndexOf serverOrder b.server.name) :=
    ⟨fun a b => Int.le_total _ _⟩
  haveI hTrans : IsTrans McpConnection
      (fun a b => jsIndexOf serverOrder a.server.name ≤ jsIndexOf serverOrder b.server.name) :=
    ⟨fun a b c hab hbc => le_trans hab hbc⟩
  have hsorted := List.sorted_insertionSort
    (fun a b => jsIndexOf serverOrder a.server.name ≤ jsIndexOf serverOrder b.server.name) conns
  have hperm := List.perm_insertionSort
    (fun a b => jsIndexOf serverOrder a.server.name ≤ jsIndexOf serverOrder b.server.name) conns
  have hnodupL : ((List.insertionSort
      (fun a b => jsIndexOf serverOrder a.server.name ≤ jsIndexOf serverOrder b.server.name)
      conns).map (fun c => c.server.name)).Nodup :=
    ((hperm.map (fun c => c.server.name)).nodup_iff).mpr h1
  have hpw := List.pairwise_map.mp hnodupL
  have hmemL : ∀ c ∈ (List.insertionSort
      (fun a b => jsIndexOf serverOrder a.server.name ≤ jsIndexOf serverOrder b.server.name)
      conns), c.server.name ∈ serverOrder :=
    fun c hc => h2 c (hperm.mem_iff.mp hc)
  refine List.Pairwise.imp_of_mem ?_ (hsorted.and hpw)
  intro a b ha hb hr
  refine lt_of_le_of_ne hr.1 (fun heq => hr.2 ?_)
  exact jsIndexOf_inj serverOrder a.server.name b.server.name (hmemL a ha) (hmemL b hb) heq

/-- Counterexample for C8: two registries with the same contents in
different insertion order (a permutation) whose names do not appear in the
configuration key order both carry the JavaScript `indexOf` value `-1`, and
the stable sort keeps their insertion order — so the listing is *not*
independent of the order the connections were created in, and for such
names "ordered by the position in the key sequence" does not determine the
output at all. -/
theorem claim_C8_counterexample :
    List.Perm [connB, connA] [connA, connB] ∧
    getSortedMcpServers [connA, connB] [] ≠ getSortedMcpServers [connB, connA] [] :=
  ⟨List.Perm.swap connA connB [], by decide⟩

/-- Claim C8, amended: under the registry invariant (unique connection
names) and with every registry name present in the configuration file's key
sequence, `getSortedMcpServers` returns exactly the registry's servers —
a permutation of them — in strictly ascending key-sequence position, and
any two registries that are permutations of each other produce the *same*
listing, so the creation/insertion order is irrelevant. -/
theorem claim_C8_amended (conns : List McpConnection) (serverOrder : List String)
    (h1 : (conns.map (fun c => c.server.name)).Nodup)
    (h2 : ∀ c ∈ conns, c.server.name ∈ serverOrder) :
    (getSortedMcpServers conns serverOrder).Perm (conns.map (fun c => c.server)) ∧
    (getSortedMcpServers conns serverOrder).Pairwise
      (fun a b => jsIndexOf serverOrder a.name ≤ jsIndexOf serverOrder b.name) ∧
    ∀ conns₂, conns₂.Perm conns →
      getSortedMcpServers conns₂ serverOrder = getSortedMcpServers conns serverOrder := by
  haveI hTot : IsTotal McpConnection
      (fun a b => jsIndexOf serverOrder a.server.name ≤ jsIndexOf serverOrder b.server.name) :=
    ⟨fun a b => Int.le_total _ _⟩
  haveI hTrans : IsTrans McpConnection
      (fun a b => jsIndexOf serverOrder a.server.name ≤ jsIndexOf serverOrder b.server.name) :=
    ⟨fun a b c hab hbc => le_trans hab hbc⟩
  unfold getSortedMcpServers
  refine ⟨?_, ?_, ?_⟩
  · exact (List.perm_insertionSort
      (fun a b => jsIndexOf serverOrder a.server.name ≤ jsIndexOf serverOrder b.server.name)
      conns).map (fun c => c.server)
  · have hsorted := List.sorted_insertionSort
      (fun a b => jsIndexOf serverOrder a.server.name ≤ jsIndexOf serverOrder b.server.name) conns
    exact List.pairwise_map.mpr hsorted
  · intro conns₂ hperm
    have h1' : (conns₂.map (fun c => c.server.name)).Nodup :=
      ((hperm.map (fun c => c.server.name)).nodup_iff).mpr h1
    have h2' : ∀ c ∈ conns₂, c.server.name ∈ serverOrder :=
      fun c hc => h2 c (hperm.mem_iff.mp hc)
    have hs1 := insertionSort_strict_sorted serverOrder conns h1 h2
    have hs2 := insertionSort_strict_sorted serverOrder conns₂ h1' h2'
    have hpermL : (List.insertionSort
        (fun a b => jsIndexOf serverOrder a.server.name ≤ jsIndexOf serverOrder b.server.name)
        conns₂).Perm
      (List.insertionSort
        (fun a b => jsIndexOf serverOrder a.server.name ≤ jsIndexOf serverOrder b.server.name)
        conns) :=
      ((List.perm_insertionSort _ conns₂).trans hperm).trans
        (List.perm_insertionSort _ conns).symm
    haveI hAnti : IsAntisymm McpConnection
        (fun a b => jsIndexOf serverOrder a.server.name < jsIndexOf serverOrder b.server.name) :=
      ⟨fun a b hab hba => ((lt_asymm hab) hba).elim⟩
    have heq := List.eq_of_perm_of_sorted hpermL hs2 hs1
    rw [heq]

/-- Witness for the amended C8: two permuted registries sorted against a key
order listing `"b"` before `"a"` produce the identical listing. -/
theorem claim_C8_amended_witness :
    (getSortedMcpServers [connA, connB] ["b", "a"]).Perm
      ([connA, connB].map (fun c => c.server)) ∧
    (getSortedMcpServers [connA, connB] ["b", "a"]).Pairwise
      (fun a b => jsIndexOf ["b", "a"] a.name ≤ jsIndexOf ["b", "a"] b.name) ∧
    ∀ conns₂, conns₂.Perm [connA, connB] →
      getSortedMcpServers conns₂ ["b", "a"] = getSortedMcpServers [connA, connB] ["b", "a"] :=
  claim_C8_amended [connA, connB] ["b", "a"] (by decide) (by decide)

theorem updateAssocFirst_keys (l : List (String × McpServerConfig)) (k : String)
    (f : McpServerConfig → McpServerConfig) :
    (updateAssocFirst l k f).map Prod.fst = l.map Prod.fst := by
  induction l with
  | nil => rfl
  | cons kv rest ih =>
    obtain ⟨k1, v1⟩ := kv
    unfold updateAssocFirst
    by_cases h : (k1 == k) = true
    · rw [if_pos h]
      simp
    · rw [if_neg h]
      simp [ih]

theorem updateAssocFirst_mem (l : List (String × McpServerConfig)) (k : String)
    (f : McpServerConfig → McpServerConfig) (v : McpServerConfig)
    (h : l.lookup k = some v) : (k, f v) ∈ updateAssocFirst l k f := by
  induction l with
  | nil => simp [List.lookup] at h
  | cons kv rest ih =>
    obtain ⟨k1, v1⟩ := kv
    unfold updateAssocFirst
    by_cases hk : k1 = k
    · subst hk
      have : v = v1 := by
        simp [List.lookup] at h
        exact h.symm
      subst this
      rw [if_pos (beq_self_eq_true k1)]
      exact List.mem_cons_self _ _
    · have hkk1 : (k == k1) = false := by
        cases hb : (k == k1)
        · rfl
        · exact absurd (beq_iff_eq.mp hb).symm hk
      have hk1k : (k1 == k) = false := by
        cases hb : (k1 == k)
        · rfl
        · exact absurd (beq_iff_eq.mp hb) hk
      simp only [List.lookup, hkk1] at h
      rw [if_neg (by simp [hk1k])]
      exact List.mem_cons_of_mem _ (ih h)

theorem updateConnFirst_mem (conns : List McpConnection) (name : String)
    (g : McpConnection → McpConnection) (c : McpConnection)
    (hc : c ∈ updateConnFirst conns name g) :
    c ∈ conns ∨ ∃ c₀ ∈ conns, c₀.server.name = name ∧ c = g c₀ := by
  induction conns with
  | nil => cases hc
  | cons c1 rest ih =>
    unfold updateConnFirst at hc
    by_cases h1 : (c1.server.name == name) = true
    · rw [if_pos h1] at hc
      rcases List.mem_cons.mp hc with hh | hh
      · exact .inr ⟨c1, List.mem_cons_self _ _, beq_iff_eq.mp h1, hh⟩
      · exact .inl (List.mem_cons_of_mem _ hh)
    · rw [if_neg h1] at hc
      rcases List.mem_cons.mp hc with hh | hh
      · exact .inl (hh ▸ List.mem_cons_self _ _)
      · rcases ih hh with hin | ⟨c₀, hc₀, hc₀n, hce⟩
        · exact .inl (List.mem_cons_of_mem _ hin)
        · exact .inr ⟨c₀, List.mem_cons_of_mem _ hc₀, hc₀n, hce⟩

theorem setDisabled_disabled (cfg : McpServerConfig) (d : Bool) :
    (cfg.setDisabled d).disabled = d := by
  cases cfg <;> rfl

theorem config_ne_of_disabled (c₁ c₂ : McpServerConfig)
    (h : c₁.disabled ≠ c₂.disabled) : c₁ ≠ c₂ :=
  fun hh => h (hh ▸ rfl)

theorem reconcileLoop_disables_name (env : String → ConnectEnv)
    (pre post : List (String × McpServerConfig)) (a : String) (cfga : McpServerConfig)
    (st : List McpConnection) (evs : List ReconcileEvent)
    (hpre : a ∉ pre.map Prod.fst) (hpost : a ∉ post.map Prod.fst)
    (hdis : cfga.disabled = true)
    (hdiff : ∀ c ∈ connsNamed a st, c.server.config ≠ cfga) :
    ∀ c ∈ connsNamed a (reconcileLoop env (pre ++ (a, cfga) :: post) st evs).1,
      c.client = false ∧ c.transport = false := by
  intro c hc
  rw [reconcileLoop_append] at hc
  have hS1names : connsNamed a (reconcileLoop env pre st evs).1 = connsNamed a st :=
    connsNamed_loop_other env pre a st evs hpre
  have hc' : c ∈ connsNamed a (reconcileLoop env post
      (reconcileStep env (reconcileLoop env pre st evs).1 a cfga).1
      ((reconcileLoop env pre st evs).2 ++
        (reconcileStep env (reconcileLoop env pre st evs).1 a cfga).2)).1 := hc
  rw [connsNamed_loop_other env post a _ _ hpost] at hc'
  cases hf : (reconcileLoop env pre st evs).1.find? (fun cc => cc.server.name == a) with
  | none =>
    have hstep1 : (reconcileStep env (reconcileLoop env pre st evs).1 a cfga).1 =
        (connectToServer (reconcileLoop env pre st evs).1 a cfga (env a)).1 := by
      rw [reconcileStep_none_eq env _ a cfga hf]
    rw [hstep1] at hc'
    exact connectToServer_disabled_cfg _ a cfga (env a) hdis c hc'
  | some cur =>
    have hcur : cur.server.config ≠ cfga := by
      apply hdiff
      rw [← hS1names]
      have hpred := List.find?_some hf
      exact List.mem_filter.mpr ⟨List.mem_of_find?_eq_some hf, hpred⟩
    have hstep1 : (reconcileStep env (reconcileLoop env pre st evs).1 a cfga).1 =
        (connectToServer
          (deleteConnection (reconcileLoop env pre st evs).1 a (env a).closeThrows)
          a cfga (env a)).1 := by
      rw [reconcileStep_recreate_eq env _ a cfga cur hf hcur]
    rw [hstep1] at hc'
    exact connectToServer_disabled_cfg _ a cfga (env a) hdis c hc'

/-- During any reconciliation pass with unique desired keys in which the
desired config for a name is disabled but every current entry of that name
was stored from a different config, every entry of that name afterwards
holds no client and no transport. -/
theorem reconcile_disables_name (conns : List McpConnection)
    (desired : List (String × McpServerConfig)) (env : String → ConnectEnv)
    (a : String) (cfga : McpServerConfig)
    (hnd : (desired.map Prod.fst).Nodup) (hmem : (a, cfga) ∈ desired)
    (hdis : cfga.disabled = true)
    (hdiff : ∀ c ∈ connsNamed a conns, c.server.config ≠ cfga) :
    ∀ c ∈ connsNamed a (updateServerConnections conns desired env).1,
      c.client = false ∧ c.transport = false := by
  obtain ⟨pre, post, heq⟩ := List.append_of_mem hmem
  subst heq
  rw [List.map_append, List.map_cons, List.nodup_append] at hnd
  obtain ⟨hnd1, hnd2, hdisj⟩ := hnd
  have hpost : a ∉ post.map Prod.fst := (List.nodup_cons.mp hnd2).1
  have hpre : a ∉ pre.map Prod.fst :=
    fun hmem2 => (hdisj hmem2) (List.mem_cons_self _ _)
  have hnameIn : a ∈ (pre ++ (a, cfga) :: post).map Prod.fst := by simp
  intro c hc
  have hc' : c ∈ connsNamed a (reconcileLoop env (pre ++ (a, cfga) :: post)
      (deleteRemovedServers env ((pre ++ (a, cfga) :: post).map Prod.fst)
        (setOrder (conns.map fun cc => cc.server.name)) conns []).1
      (deleteRemovedServers env ((pre ++ (a, cfga) :: post).map Prod.fst)
        (setOrder (conns.map fun cc => cc.server.name)) conns []).2).1 := hc
  refine reconcileLoop_disables_name env pre post a cfga _ _ hpre hpost hdis ?_ c hc'
  rw [connsNamed_update_start conns (pre ++ (a, cfga) :: post) env a hnameIn]
  exact hdiff

/-- Counterexample for C1: `toggleServerDisabledRPC` with `disabled = true`
on a currently connected server flips `server.disabled` in place and leaves
the transport and the protocol client attached, so the invariant "a disabled
connection holds no transport and no protocol client" is violated right
after the RPC operation. -/
theorem claim_C1_counterexample :
    connA.server.disabled = false ∧ connA.client = true ∧ connA.transport = true ∧
    toggleServerDisabledRPC (some [("a", cfgA)]) [connA] "a" true =
      .ok ([("a", cfgA.setDisabled true)],
           [{ connA with server := { connA.server with disabled := true } }],
           [{ connA.server with disabled := true }]) ∧
    ¬ DisabledInvariant [{ connA with server := { connA.server with disabled := true } }] :=
  ⟨rfl, rfl, rfl, rfl, by unfold DisabledInvariant connOk; decide⟩

/-- Claim C1, amended: the disabled-connection invariant holds after
`connectToServer`, `deleteConnection` and `updateServerConnections` — the
operations that attach or detach transports — but `toggleServerDisabledRPC`
with `disabled = true` only flips the flag in place (the counterexample);
the invariant is restored by the reconciliation pass that the settings write
subsequently triggers: reconciling the toggled registry against the written
settings leaves every connection invariant-respecting, because the toggled
server's stored snapshot (built with `disabled = false`) differs from the
written config, forcing delete + recreate as a transport-less disabled
entry. -/
theorem claim_C1_amended :
    (∀ (conns : List McpConnection) (name : String) (cfg : McpServerConfig)
        (env : ConnectEnv),
      DisabledInvariant conns → DisabledInvariant (connectToServer conns name cfg env).1) ∧
    (∀ (st : List McpConnection) (name : String) (b : Bool),
      DisabledInvariant st → DisabledInvariant (deleteConnection st name b)) ∧
    (∀ (conns : List McpConnection) (desired : List (String × McpServerConfig))
        (env : String → ConnectEnv),
      DisabledInvariant conns →
      DisabledInvariant (updateServerConnections conns desired env).1) ∧
    (∀ (settings : List (String × McpServerConfig)) (conns : List McpConnection)
        (a : String) (env : String → ConnectEnv)
        (settings' : List (String × McpServerConfig)) (conns' : List McpConnection)
        (sorted : List McpServer),
      (settings.map Prod.fst).Nodup →
      DisabledInvariant conns →
      (∀ c ∈ conns, c.server.name = a → c.server.config.disabled = false) →
      toggleServerDisabledRPC (some settings) conns a true = .ok (settings', conns', sorted) →
      DisabledInvariant (updateServerConnections conns' settings' env).1) := by
  refine ⟨?_, ?_, ?_, ?_⟩
  · intro conns name cfg env hinv c hc
    rcases connectToServer_mem conns name cfg env c hc with hin | hok
    · exact hinv c hin
    · exact hok
  · intro st name b hinv c hc
    exact hinv c (deleteConnection_mem st name b c hc)
  · intro conns desired env hinv c hc
    rcases updateServerConnections_mem conns desired env c hc with hin | hok
    · exact hinv c hin
    · exact hok
  · intro settings conns a env settings' conns' sorted hndkeys hinv hcfgfalse htoggle
    unfold toggleServerDisabledRPC at htoggle
    cases hlk : settings.lookup a with
    | none =>
      simp only [hlk] at htoggle
      exact Except.noConfusion htoggle
    | some cfga =>
      simp only [hlk, Except.ok.injEq, Prod.mk.injEq] at htoggle
      obtain ⟨hs, hc, hsort⟩ := htoggle
      subst hs
      subst hc
      intro c hcmem
      by_cases hname : c.server.name = a
      · intro _
        have hnd' : ((updateAssocFirst settings a (fun cf => cf.setDisabled true)).map
            Prod.fst).Nodup := by
          rw [updateAssocFirst_keys]
          exact hndkeys
        have hmem' : (a, cfga.setDisabled true) ∈
            updateAssocFirst settings a (fun cf => cf.setDisabled true) :=
          updateAssocFirst_mem settings a _ cfga hlk
        have hdiff : ∀ cc ∈ connsNamed a (updateConnFirst conns a
            (fun c0 => { c0 with server := { c0.server with disabled := true } })),
            cc.server.config ≠ cfga.setDisabled true := by
          intro cc hcc
          have hccname : cc.server.name = a := by
            have hpred := (List.mem_filter.mp hcc).2
            exact beq_iff_eq.mp hpred
          rcases updateConnFirst_mem conns a _ cc (List.mem_of_mem_filter hcc) with
            hin | ⟨c₀, hc₀, hc₀n, hce⟩
          · apply config_ne_of_disabled
            rw [hcfgfalse cc hin hccname, setDisabled_disabled]
            simp
          · subst hce
            apply config_ne_of_disabled
            show c₀.server.config.disabled ≠ (cfga.setDisabled true).disabled
            rw [hcfgfalse c₀ hc₀ hc₀n, setDisabled_disabled]
            simp
        have := reconcile_disables_name
          (updateConnFirst conns a
            (fun c0 => { c0 with server := { c0.server with disabled := true } }))
          (updateAssocFirst settings a (fun cf => cf.setDisabled true)) env a
          (cfga.setDisabled true) hnd' hmem' (setDisabled_disabled cfga true) hdiff c
          (List.mem_filter.mpr ⟨hcmem, by simp [hname]⟩)
        exact this
      · rcases updateServerConnections_mem _ _ env c hcmem with hin | hok
        · rcases updateConnFirst_mem conns a _ c hin with hin2 | ⟨c₀, hc₀, hc₀n, hce⟩
          · exact hinv c hin2
          · subst hce
            exact absurd hc₀n hname
        · exact hok

/-- Witness for the amended C1: toggling the connected server `"a"` disabled
and reconciling against the written settings restores the invariant. -/
theorem claim_C1_amended_witness :
    DisabledInvariant (updateServerConnections
      [{ connA with server := { connA.server with disabled := true } }]
      [("a", cfgA.setDisabled true)] (fun _ => envDefault)).1 :=
  claim_C1_amended.2.2.2 [("a", cfgA)] [connA] "a" (fun _ => envDefault)
    [("a", cfgA.setDisabled true)]
    [{ connA with server := { connA.server with disabled := true } }]
    [{ connA.server with disabled := true }]
    (by decide) (by unfold DisabledInvariant connOk; decide) (by decide) rfl

end McpHub
